import Mathlib

set_option maxRecDepth 8000

/-!
Verification of the decoder in `src/main.py` (finance-py).

The program's core is `parse_raw_stock`: it strips and splits the raw text
into lines, percent-decodes the market label on line 0, scans `KEY=VALUE`
header lines, localizes `DATA_SESSIONS` minute offsets against
`TIMEZONE_OFFSET`, decodes the delta-encoded price rows, and builds a
pandas DataFrame indexed by the `DATE` column.

Python strings are modeled as lists of byte values (`Str`); all concrete
inputs are ASCII, where code points and UTF-8 bytes coincide.  Fallible
Python operations (exceptions) are modeled with `Except Err`; `Err`
records the exception kind (and, for name/key errors, the Python
name/key), mirroring `IndexError`, `NameError`/`UnboundLocalError`,
`ValueError` and `KeyError` raised by the source.  Timezone-aware
`datetime` values are modeled by their POSIX timestamp (an `Int` number
of seconds); the attached fixed-offset zone is the one in the metadata
and only affects the wall-clock rendering, which `epochOfCivil` below
makes explicit.
-/

abbrev Str : Type := List Nat

/-- Byte values of an ASCII string literal (code points, which for ASCII
equal the UTF-8 bytes).  Used to write concrete inputs readably. -/
def asciiBytes (s : String) : Str := s.data.map Char.toNat

/-- Python `str.isspace` on the byte range: ASCII whitespace, the file
separators 0x1c-0x1f, NEL (0x85) and NBSP (0xa0).  `str.strip()` removes
exactly these from both ends. -/
def pyIsSpace (b : Nat) : Bool :=
  b == 9 || b == 10 || b == 11 || b == 12 || b == 13 ||
  b == 28 || b == 29 || b == 30 || b == 31 || b == 32 || b == 133 || b == 160

/-- Line boundaries recognized by Python `str.splitlines` in the byte
range: LF, VT, FF, CR (with CR LF as one boundary), FS, GS, RS and NEL. -/
def pyIsLineBreak (b : Nat) : Bool :=
  b == 10 || b == 11 || b == 12 || b == 13 || b == 28 || b == 29 || b == 30 || b == 133

/-- Python `str.lstrip()`. -/
def pyLStrip (s : Str) : Str := s.dropWhile pyIsSpace

/-- Python `str.rstrip()`. -/
def pyRStrip (s : Str) : Str := (s.reverse.dropWhile pyIsSpace).reverse

/-- Python `str.strip()`. -/
def pyStrip (s : Str) : Str := pyRStrip (pyLStrip s)

/-- Worker for `pySplitlines`; `acc` holds the current line reversed. -/
def splitlinesGo : List Nat → List Nat → List (List Nat)
  | [], acc => if acc.isEmpty then [] else [acc.reverse]
  | 13 :: 10 :: rest, acc => acc.reverse :: splitlinesGo rest []
  | c :: rest, acc =>
    if pyIsLineBreak c then acc.reverse :: splitlinesGo rest []
    else splitlinesGo rest (c :: acc)

/-- Python `str.splitlines()`: no trailing empty line for a trailing
terminator, and `""` yields no lines at all. -/
def pySplitlines (s : Str) : List Str := splitlinesGo s []

/-- Worker for `pySplit`; `acc` holds the current field reversed. -/
def splitGo (sep : Nat) : List Nat → List Nat → List (List Nat)
  | [], acc => [acc.reverse]
  | c :: rest, acc =>
    if c == sep then acc.reverse :: splitGo sep rest []
    else splitGo sep rest (c :: acc)

/-- Python `str.split(sep)` for a one-character separator: always at least
one field, `""` splitting to `[""]`. -/
def pySplit (sep : Nat) (s : Str) : List Str := splitGo sep s []

/-- The tuple unpacking `key, value = line.split('=')`: succeeds exactly
when the line holds exactly one `=`. -/
def split2 (l : Str) : Option (Str × Str) :=
  match pySplit 61 l with
  | [k, v] => some (k, v)
  | _ => none

def pyIsDigit (b : Nat) : Bool := 48 ≤ b && b ≤ 57

/-- Digit run with single underscores allowed between digits, as Python
`int` accepts (`int("8_6400") = 86400`, but `"_1"`, `"1_"`, `"1__2"` fail). -/
def pyDigitsLoop (acc : Nat) : List Nat → Option Nat
  | [] => some acc
  | c :: rest =>
    if pyIsDigit c then pyDigitsLoop (acc * 10 + (c - 48)) rest
    else if c == 95 then
      match rest with
      | d :: rest2 =>
        if pyIsDigit d then pyDigitsLoop (acc * 10 + (d - 48)) rest2 else none
      | [] => none
    else none

def pyDigits : List Nat → Option Nat
  | [] => none
  | c :: rest => if pyIsDigit c then pyDigitsLoop (c - 48) rest else none

/-- Python `int(str)` (ASCII): optional surrounding whitespace, optional
sign, then a nonempty digit run; `none` models the `ValueError`. -/
def pyInt (s : Str) : Option Int :=
  match pyStrip s with
  | 43 :: rest => (pyDigits rest).map (fun n => (n : Int))
  | 45 :: rest => (pyDigits rest).map (fun n => -(n : Int))
  | t => (pyDigits t).map (fun n => (n : Int))

def pyIsHexDigit (b : Nat) : Bool :=
  (48 ≤ b && b ≤ 57) || (65 ≤ b && b ≤ 70) || (97 ≤ b && b ≤ 102)

def hexVal (b : Nat) : Nat :=
  if b ≤ 57 then b - 48 else if b ≤ 70 then b - 55 else b - 87

/-- `urllib.parse.unquote` at the byte level: `%` followed by two hex
digits decodes to that byte; an invalid escape leaves the `%` literal.
(The UTF-8 re-decoding layer of the Python version is the identity on
the byte representation used here.) -/
def pyUnquote : Str → Str
  | [] => []
  | 37 :: a :: b :: rest2 =>
    if pyIsHexDigit a && pyIsHexDigit b then
      (16 * hexVal a + hexVal b) :: pyUnquote rest2
    else 37 :: pyUnquote (a :: b :: rest2)
  | c :: rest => c :: pyUnquote rest

/-- The characters `urllib.parse.quote` leaves unescaped with its default
`safe='/'`: ASCII alphanumerics, `_`, `.`, `-`, `~` and `/`. -/
def pyQuoteSafe (b : Nat) : Bool :=
  (65 ≤ b && b ≤ 90) || (97 ≤ b && b ≤ 122) || (48 ≤ b && b ≤ 57) ||
  b == 95 || b == 46 || b == 45 || b == 126 || b == 47

/-- Uppercase hex digit of a nibble, as `quote` emits. -/
def hexDigitU (n : Nat) : Nat := if n < 10 then 48 + n else 55 + n

def quoteByte (b : Nat) : Str :=
  if pyQuoteSafe b then [b] else [37, hexDigitU (b / 16), hexDigitU (b % 16)]

/-- `urllib.parse.quote` at the byte level (default safe set). -/
def pyQuote (s : Str) : Str := (s.map quoteByte).flatten

/-- Character class `[A-Z0-9]` of the `DATA_SESSIONS` pattern. -/
def pyIsUpperDigit (b : Nat) : Bool := (65 ≤ b && b ≤ 90) || (48 ≤ b && b ≤ 57)

def digitsToNat (l : List Nat) : Nat := l.foldl (fun a c => a * 10 + (c - 48)) 0

/-- One attempted match of `\[([A-Z0-9]+),([0-9]+),([0-9]+)\]` at the head
of `s`.  The character classes exclude the delimiters, so the greedy runs
need no backtracking. -/
def matchSession (s : Str) : Option ((Str × Nat × Nat) × Str) :=
  match s with
  | 91 :: r1 =>
    let code := r1.takeWhile pyIsUpperDigit
    let r2 := r1.dropWhile pyIsUpperDigit
    if code.isEmpty then none else
    match r2 with
    | 44 :: r3 =>
      let d1 := r3.takeWhile pyIsDigit
      let r4 := r3.dropWhile pyIsDigit
      if d1.isEmpty then none else
      match r4 with
      | 44 :: r5 =>
        let d2 := r5.takeWhile pyIsDigit
        let r6 := r5.dropWhile pyIsDigit
        if d2.isEmpty then none else
        match r6 with
        | 93 :: r7 => some ((code, digitsToNat d1, digitsToNat d2), r7)
        | _ => none
      | _ => none
    | _ => none
  | _ => none

/-- `re.finditer` scan: try a match at each position, resuming after each
match.  The fuel starts at the input length; every step consumes at least
one byte, so it never runs out. -/
def findSessionsGo : Nat → Str → List (Str × Nat × Nat)
  | 0, _ => []
  | _, [] => []
  | fuel + 1, c :: rest =>
    match matchSession (c :: rest) with
    | some (entry, rest2) => entry :: findSessionsGo fuel rest2
    | none => findSessionsGo fuel rest

def findSessions (s : Str) : List (Str × Nat × Nat) := findSessionsGo s.length s

/-- Python dict assignment `d[k] = v`: update in place if the key exists
(keeping insertion order), else append. -/
def dictInsert {α : Type} (k : Str) (v : α) : List (Str × α) → List (Str × α)
  | [] => [(k, v)]
  | (k2, v2) :: rest =>
    if k2 = k then (k, v) :: rest else (k2, v2) :: dictInsert k v rest

/-- The `DATA_SESSIONS` branch: a fresh dict filled from the regex
matches, `session.group(1)` as key, the two numbers as value. -/
def sessionsOf (value : Str) : List (Str × Nat × Nat) :=
  (findSessions value).foldl (fun d e => dictInsert e.1 e.2 d) []

/-- A `datetime.time` with a fixed-offset zone, as stored for sessions. -/
structure PyTime where
  hour : Nat
  minute : Nat
  tzMin : Int
deriving DecidableEq, Repr

structure Session where
  startTime : PyTime
  endTime : PyTime
deriving DecidableEq, Repr

/-- Exception kinds the decode can raise.  `nameError` covers Python
`NameError`/`UnboundLocalError` with the variable's name; `keyError`
carries the missing dict key or pandas index label; `valueError` collapses
the various `ValueError` messages (`int` parse failures, `time`/`timezone`
range, DataFrame width mismatch). -/
inductive Err where
  | indexError : Err
  | nameError : String → Err
  | valueError : Err
  | keyError : String → Err
deriving DecidableEq, Repr

/-- State built by the header loop: the `metadata` dict entries other than
`market`, plus the local variable `columns`. -/
structure HState where
  tick : Option Int
  columns : Option (List Str)
  sessionsRaw : Option (List (Str × Nat × Nat))
  timezone : Option Int
deriving DecidableEq, Repr

def initHState : HState := ⟨none, none, none, none⟩

/-- The metadata dict as returned: `market`, and the optional `tick`
(seconds), localized `sessions`, and `timezone` (minutes east of UTC). -/
structure Metadata where
  market : Str
  tick : Option Int
  sessions : Option (List (Str × Session))
  timezone : Option Int
deriving DecidableEq, Repr

/-- A DataFrame cell: a timestamp (the datetime in column `DATE`), a raw
string value, or the `None` padding numpy fills short rows with. -/
inductive Cell where
  | time : Int → Cell
  | str : Str → Cell
  | blank : Cell
deriving DecidableEq, Repr

/-- The result of `pandas.DataFrame(prices, columns=columns).set_index('DATE')`:
the index column, the remaining column names, and the remaining cells. -/
structure Frame where
  index : List Cell
  columns : List Str
  data : List (List Cell)
deriving DecidableEq, Repr

inductive HField where
  | tick : HField
  | columns : HField
  | sessions : HField
  | timezone : HField
deriving DecidableEq, Repr

/-- Which branch of the `if key == ...` chain a header key selects. -/
def fieldOf (k : Str) : Option HField :=
  if k = asciiBytes "INTERVAL" then some .tick
  else if k = asciiBytes "COLUMNS" then some .columns
  else if k = asciiBytes "DATA_SESSIONS" then some .sessions
  else if k = asciiBytes "TIMEZONE_OFFSET" then some .timezone
  else none

/-- `datetime.timezone(datetime.timedelta(minutes=int(value)))`: the int
parse may fail, and the offset must be strictly between -24h and 24h. -/
def pyTimezone (v : Str) : Option Int :=
  match pyInt v with
  | none => none
  | some m => if -1440 < m ∧ m < 1440 then some m else none

/-- One iteration body of the header loop (lines 43-58 of the source). -/
def processEntry (st : HState) (kv : Str × Str) : Except Err HState :=
  match fieldOf kv.1 with
  | some .tick =>
    match pyInt kv.2 with
    | none => .error .valueError
    | some n => .ok { st with tick := some n }
  | some .columns => .ok { st with columns := some (pySplit 44 (pyStrip kv.2)) }
  | some .sessions => .ok { st with sessionsRaw := some (sessionsOf kv.2) }
  | some .timezone =>
    match pyTimezone kv.2 with
    | none => .error .valueError
    | some m => .ok { st with timezone := some m }
  | none => .ok st

def foldHeaders (st : HState) : List (Str × Str) → Except Err HState
  | [] => .ok st
  | kv :: rest => do foldHeaders (← processEntry st kv) rest

/-- The header loop over `lines[1:]`: consume lines while they split into
exactly two parts on `=`; the first line that does not starts the data
section.  When no line fails to split, Python reuses the final value of
the `enumerate` counter, so the last line is consumed as a header AND is
also the first (only) data line; that quirk is reproduced here. -/
def pyHeaderScan : List Str → List (Str × Str) × List Str
  | [] => ([], [])
  | [l] =>
    match split2 l with
    | some kv => ([kv], [l])
    | none => ([], [l])
  | l :: l2 :: rest =>
    match split2 l with
    | some kv =>
      let r := pyHeaderScan (l2 :: rest)
      (kv :: r.1, r.2)
    | none => ([], l :: l2 :: rest)

/-- Localization of one session entry (lines 61-68): the dict access
`metadata['timezone']` raises `KeyError` before `datetime.time` validates
the hour (which must be at most 23). -/
def localizeEntry (tz : Option Int) (e : Str × Nat × Nat) : Except Err (Str × Session) :=
  match tz with
  | none => .error (.keyError "timezone")
  | some z =>
    if 24 ≤ e.2.1 / 60 then .error .valueError
    else if 24 ≤ e.2.2 / 60 then .error .valueError
    else .ok (e.1, ⟨⟨e.2.1 / 60, e.2.1 % 60, z⟩, ⟨e.2.2 / 60, e.2.2 % 60, z⟩⟩)

def mapExcept {α β : Type} (f : α → Except Err β) : List α → Except Err (List β)
  | [] => .ok []
  | a :: rest => do .ok ((← f a) :: (← mapExcept f rest))

/-- The dict comprehension rebuilding `metadata['sessions']` with
zone-aware times.  On an empty dict the body never runs, so a missing
timezone is only detected when there is at least one entry. -/
def localizeSessions (raw : Option (List (Str × Nat × Nat))) (tz : Option Int) :
    Except Err (Option (List (Str × Session))) :=
  match raw with
  | none => .ok none
  | some entries => do .ok (some (← mapExcept (localizeEntry tz) entries))

/-- `rawtime, *data = line.split(',')`: the time token. -/
def timeToken (l : Str) : Str := (pySplit 44 l).headD []

/-- `rawtime, *data = line.split(',')`: the remaining values. -/
def rowValues (l : Str) : List Str := (pySplit 44 l).tail

/-- `rawtime.startswith('a')`: the time token's first byte is `a` (an
empty token has no first byte and does not start with `a`). -/
def startsWithA (l : Str) : Bool := (timeToken l).headD 0 == 97

/-- The data loop (lines 70-83).  An `a`-marked token parses its digits as
an absolute POSIX timestamp (needing `metadata['timezone']`) and resets
the anchor `last_time`; a plain token is a relative offset from the
anchor, scaled by `metadata['tick']`.  Failure order follows Python's
evaluation order: in the relative branch `last_time` is read first
(`NameError` when unbound), then `metadata['tick']` (`KeyError`), then
`int(rawtime)` (`ValueError`); in the absolute branch `int(rawtime[1:])`
is evaluated before `metadata['timezone']`. -/
def parsePrices (tz tick : Option Int) : Option Int → List Str → Except Err (List (Int × List Str))
  | _, [] => .ok []
  | anchor, line :: rest =>
    if startsWithA line then
      match pyInt ((timeToken line).drop 1) with
      | none => .error .valueError
      | some t =>
        match tz with
        | none => .error (.keyError "timezone")
        | some _ =>
          match parsePrices tz tick (some t) rest with
          | .error e => .error e
          | .ok rows => .ok ((t, rowValues line) :: rows)
    else
      match anchor with
      | none => .error (.nameError "last_time")
      | some a =>
        match tick with
        | none => .error (.keyError "tick")
        | some tk =>
          match pyInt (timeToken line) with
          | none => .error .valueError
          | some n =>
            match parsePrices tz tick (some a) rest with
            | .error e => .error e
            | .ok rows => .ok ((a + tk * n, rowValues line) :: rows)

def dateBytes : Str := asciiBytes "DATE"

/-- `pandas.DataFrame(prices, columns=columns).set_index('DATE')` (line 85).
An unassigned `columns` raises `NameError`.  pandas builds an object array
whose width is the longest tuple, padding shorter tuples with `None`, and
raises `ValueError` when `len(columns)` differs from that width (no width
check for an empty row list).  `set_index` drops the `DATE` column into
the index, raising `KeyError` when absent. -/
def mkFrame (colsOpt : Option (List Str)) (prices : List (Int × List Str)) : Except Err Frame :=
  match colsOpt with
  | none => .error (.nameError "columns")
  | some cols =>
    let rows := prices.map (fun p => Cell.time p.1 :: p.2.map Cell.str)
    if rows.isEmpty then
      match cols.findIdx? (· = dateBytes) with
      | none => .error (.keyError "DATE")
      | some p => .ok ⟨[], cols.eraseIdx p, []⟩
    else
      let width := rows.foldl (fun m r => max m r.length) 0
      if cols.length ≠ width then .error .valueError
      else
        match cols.findIdx? (· = dateBytes) with
        | none => .error (.keyError "DATE")
        | some p =>
          let padded := rows.map (fun r => r ++ List.replicate (width - r.length) Cell.blank)
          .ok ⟨padded.map (fun r => r.getD p Cell.blank),
               cols.eraseIdx p,
               padded.map (fun r => r.eraseIdx p)⟩

/-- `parse_raw_stock` on the line list produced by `strip`/`splitlines`.
An empty list raises `IndexError` at `lines[0]`; a single line leaves
`header_len` unbound (`NameError` at line 72).  Otherwise: header scan,
session localization, price decode from an unbound anchor, and the frame
construction, in the source's order. -/
def parseLines (lines : List Str) : Except Err (Metadata × Frame) :=
  match lines with
  | [] => .error .indexError
  | l0 :: tail =>
    match tail with
    | [] => .error (.nameError "header_len")
    | _ =>
      let scan := pyHeaderScan tail
      do
        let st ← foldHeaders initHState scan.1
        let sessions ← localizeSessions st.sessionsRaw st.timezone
        let prices ← parsePrices st.timezone st.tick none scan.2
        let fr ← mkFrame st.columns prices
        .ok (⟨pyUnquote l0, st.tick, sessions, st.timezone⟩, fr)

/-- `parse_raw_stock` (line 29): `data.strip().splitlines()` then the
line-oriented decode. -/
def parse_raw_stock (data : Str) : Except Err (Metadata × Frame) :=
  parseLines (pySplitlines (pyStrip data))

/-- Days since 1970-01-01 of a proleptic Gregorian civil date (the
standard `days_from_civil` computation), to state wall-clock timestamps
exactly. -/
def daysFromCivil (y m d : Int) : Int :=
  let y2 := y - (if m ≤ 2 then 1 else 0)
  let era := Int.fdiv y2 400
  let yoe := y2 - era * 400
  let mp := Int.emod (m + 9) 12
  let doy := Int.fdiv (153 * mp + 2) 5 + d - 1
  let doe := yoe * 365 + Int.fdiv yoe 4 - Int.fdiv yoe 100 + doy
  era * 146097 + doe - 719468

/-- POSIX timestamp denoted by the wall-clock time
`y-m-d h:mi:s` at a fixed offset of `offMin` minutes east of UTC. -/
def epochOfCivil (y m d h mi s offMin : Int) : Int :=
  daysFromCivil y m d * 86400 + h * 3600 + mi * 60 + s - offMin * 60

/-! ### Basic facts about the `Except` pipeline -/

theorem exBind_ok {α β : Type} (a : α) (f : α → Except Err β) :
    (Except.ok a >>= f) = f a := rfl

theorem exBind_error {α β : Type} (e : Err) (f : α → Except Err β) :
    ((Except.error e : Except Err α) >>= f) = .error e := rfl

theorem parseLines_cons (l0 t0 : Str) (ts : List Str) :
    parseLines (l0 :: t0 :: ts) =
      (foldHeaders initHState (pyHeaderScan (t0 :: ts)).1 >>= fun st =>
        localizeSessions st.sessionsRaw st.timezone >>= fun sessions =>
          parsePrices st.timezone st.tick none (pyHeaderScan (t0 :: ts)).2 >>= fun prices =>
            mkFrame st.columns prices >>= fun fr =>
              .ok (⟨pyUnquote l0, st.tick, sessions, st.timezone⟩, fr)) := rfl

/-! ### Claim C1: the end-to-end scenario -/

/-- The six-line input of claim C1, as the raw text handed to
`parse_raw_stock`. -/
def c1input : Str :=
  asciiBytes "NYSE\nINTERVAL=86400\nCOLUMNS=DATE,CLOSE,HIGH,LOW,OPEN,VOLUME\nTIMEZONE_OFFSET=-300\na1609459200,100,105,95,98,1000\n1,102,106,96,99,1100"

/-- The metadata the decode of `c1input` actually produces. -/
def c1metadata : Metadata :=
  ⟨asciiBytes "NYSE", some 86400, none, some (-300)⟩

/-- The frame the decode of `c1input` actually produces. -/
def c1frame : Frame :=
  ⟨[Cell.time 1609459200, Cell.time 1609545600],
   [asciiBytes "CLOSE", asciiBytes "HIGH", asciiBytes "LOW", asciiBytes "OPEN", asciiBytes "VOLUME"],
   [[Cell.str (asciiBytes "100"), Cell.str (asciiBytes "105"), Cell.str (asciiBytes "95"),
     Cell.str (asciiBytes "98"), Cell.str (asciiBytes "1000")],
    [Cell.str (asciiBytes "102"), Cell.str (asciiBytes "106"), Cell.str (asciiBytes "96"),
     Cell.str (asciiBytes "99"), Cell.str (asciiBytes "1100")]]⟩

/-- C1, counterexample.  The decode of the six-line input yields row
timestamps 1609459200 and 1609545600, but the claimed wall-clock time
`2021-01-01T00:00:00-05:00` denotes the instant 1609477200: the first
row's timestamp is NOT `2021-01-01T00:00:00-05:00` (the code converts the
POSIX second 1609459200 INTO zone UTC-05:00 rather than reading the digits
as a local time there). -/
theorem claim_C1_counterexample :
    parse_raw_stock c1input = .ok (c1metadata, c1frame)
    ∧ c1frame.index = [Cell.time 1609459200, Cell.time 1609545600]
    ∧ epochOfCivil 2021 1 1 0 0 0 (-300) = 1609477200
    ∧ (1609459200 : Int) ≠ epochOfCivil 2021 1 1 0 0 0 (-300) :=
  ⟨rfl, rfl, by decide, by decide⟩

/-- C1, amended.  The six-line input decodes to market `NYSE`, tick 86400
seconds, timezone UTC-05:00 and exactly two rows with the claimed values,
but row0's timestamp is `2020-12-31T19:00:00-05:00` (POSIX 1609459200) and
row1's is `2021-01-01T19:00:00-05:00` (POSIX 1609545600). -/
theorem claim_C1 :
    parse_raw_stock c1input = .ok (c1metadata, c1frame)
    ∧ c1frame.index =
        [Cell.time (epochOfCivil 2020 12 31 19 0 0 (-300)),
         Cell.time (epochOfCivil 2021 1 1 19 0 0 (-300))] :=
  ⟨rfl, by decide⟩

/-! ### Claim C3: header scan termination -/

/-- A line the header loop consumes: `line.split('=')` unpacks into
exactly two names, i.e. the line holds exactly one `=`. -/
def isHdrLine (l : Str) : Bool := (split2 l).isSome

/-- The key/value pair of a header line (junk on non-header lines). -/
def kvOf (l : Str) : Str × Str := (split2 l).getD ([], [])

/-- Modelled from the spec (claim C3's reading): a line that contains an
equals sign at all is a header line. -/
def specContainsEq (l : Str) : Bool := l.any (· == 61)

/-- Modelled from the spec (claim C3's reading): split a header line on
the FIRST equals sign. -/
def specSplitFirstEq (l : Str) : Str × Str :=
  (l.takeWhile (fun b => !(b == 61)), (l.dropWhile (fun b => !(b == 61))).drop 1)

/-- Modelled from the spec (claim C3): consume every line containing `=`
as a header, stop exactly at the first line without one; that line starts
the data section. -/
def specHeaderScan (tail : List Str) : List (Str × Str) × List Str :=
  ((tail.takeWhile specContainsEq).map specSplitFirstEq,
   tail.dropWhile specContainsEq)

def c3tail : List Str :=
  [asciiBytes "X=1=2", asciiBytes "INTERVAL=86400", asciiBytes "a1000,5"]

/-- C3, counterexample.  The line `X=1=2` contains `=`, so under the claim
the scan would consume it (and the following `INTERVAL` line) as headers;
the code instead terminates the scan at it, because `key, value =
line.split('=')` fails on two equals signs, so all three lines become
data. -/
theorem claim_C3_counterexample :
    specContainsEq (asciiBytes "X=1=2") = true
    ∧ pyHeaderScan c3tail = ([], c3tail)
    ∧ pyHeaderScan c3tail ≠ specHeaderScan c3tail :=
  ⟨rfl, rfl, by decide⟩

/-- C3, amended.  The scan consumes lines while they contain exactly one
`=` (splitting there) and terminates exactly at the first line that does
not (zero, or two or more, equals signs); that line starts the data
section.  When every line from line 1 on parses as a header, the final
line is consumed as a header and ALSO serves as the whole data section
(the loop variable keeps its last value). -/
theorem claim_C3 (tail : List Str) (h : tail ≠ []) :
    pyHeaderScan tail =
      if tail.dropWhile isHdrLine = [] then
        (tail.map kvOf, [(tail.getLast?).getD []])
      else
        ((tail.takeWhile isHdrLine).map kvOf, tail.dropWhile isHdrLine) := by
  induction tail with
  | nil => exact absurd rfl h
  | cons l rest ih =>
    cases rest with
    | nil =>
      cases hs : split2 l with
      | none =>
        have hl : isHdrLine l = false := by simp [isHdrLine, hs]
        simp [pyHeaderScan, hs, List.dropWhile_cons, List.takeWhile_cons, hl]
      | some kv =>
        have hl : isHdrLine l = true := by simp [isHdrLine, hs]
        have hkv : kvOf l = kv := by simp [kvOf, hs]
        simp [pyHeaderScan, hs, List.dropWhile_cons, List.takeWhile_cons, hl, hkv]
    | cons l2 rest2 =>
      cases hs : split2 l with
      | none =>
        have hl : isHdrLine l = false := by simp [isHdrLine, hs]
        simp [pyHeaderScan, hs, List.dropWhile_cons, List.takeWhile_cons, hl]
      | some kv =>
        have hrec := ih (by simp)
        have hl : isHdrLine l = true := by simp [isHdrLine, hs]
        have hkv : kvOf l = kv := by simp [kvOf, hs]
        have h2 : List.dropWhile isHdrLine (l :: l2 :: rest2) =
            List.dropWhile isHdrLine (l2 :: rest2) := by
          rw [List.dropWhile_cons, hl]; simp
        have h3 : List.takeWhile isHdrLine (l :: l2 :: rest2) =
            l :: List.takeWhile isHdrLine (l2 :: rest2) := by
          rw [List.takeWhile_cons, hl]; simp
        rw [show pyHeaderScan (l :: l2 :: rest2) =
              (kv :: (pyHeaderScan (l2 :: rest2)).1, (pyHeaderScan (l2 :: rest2)).2) by
            simp [pyHeaderScan, hs],
          hrec, h2, h3, List.getLast?_cons_cons]
        by_cases hd : List.dropWhile isHdrLine (l2 :: rest2) = [] <;> simp [hd, hkv]

def c3wtail : List Str := [asciiBytes "INTERVAL=1", asciiBytes "a5,1"]

/-- Witness instantiating `claim_C3` on a concrete two-line tail. -/
theorem claim_C3_witness :
    pyHeaderScan c3wtail =
      if c3wtail.dropWhile isHdrLine = [] then
        (c3wtail.map kvOf, [(c3wtail.getLast?).getD []])
      else
        ((c3wtail.takeWhile isHdrLine).map kvOf, c3wtail.dropWhile isHdrLine) :=
  claim_C3 c3wtail (by decide)

/-! ### Facts about the header fold -/

theorem fieldOf_timezone_iff (k : Str) :
    fieldOf k = some .timezone ↔ k = asciiBytes "TIMEZONE_OFFSET" := by
  unfold fieldOf
  split_ifs with h1 h2 h3 h4 <;> simp_all <;> decide

theorem fieldOf_sessions_iff (k : Str) :
    fieldOf k = some .sessions ↔ k = asciiBytes "DATA_SESSIONS" := by
  unfold fieldOf
  split_ifs with h1 h2 h3 h4 <;> simp_all <;> decide

theorem fieldOf_tick_iff (k : Str) :
    fieldOf k = some .tick ↔ k = asciiBytes "INTERVAL" := by
  unfold fieldOf
  split_ifs with h1 h2 h3 h4 <;> simp_all

theorem fieldOf_columns_iff (k : Str) :
    fieldOf k = some .columns ↔ k = asciiBytes "COLUMNS" := by
  unfold fieldOf
  split_ifs with h1 h2 h3 h4 <;> (simp_all; all_goals decide)

theorem processEntry_timezone_eq (st st2 : HState) (kv : Str × Str)
    (hk : fieldOf kv.1 ≠ some .timezone)
    (h : processEntry st kv = .ok st2) : st2.timezone = st.timezone := by
  unfold processEntry at h
  rcases hf : fieldOf kv.1 with _ | f
  · rw [hf] at h; exact congrArg HState.timezone (Except.ok.inj h) ▸ rfl
  · cases f <;> rw [hf] at h
    · cases hip : pyInt kv.2 <;> rw [hip] at h
      · exact absurd h (by simp)
      · cases Except.ok.inj h; rfl
    · cases Except.ok.inj h; rfl
    · cases Except.ok.inj h; rfl
    · exact absurd hf hk

theorem processEntry_tick_eq (st st2 : HState) (kv : Str × Str)
    (hk : fieldOf kv.1 ≠ some .tick)
    (h : processEntry st kv = .ok st2) : st2.tick = st.tick := by
  unfold processEntry at h
  rcases hf : fieldOf kv.1 with _ | f
  · rw [hf] at h; cases Except.ok.inj h; rfl
  · cases f <;> rw [hf] at h
    · exact absurd hf hk
    · cases Except.ok.inj h; rfl
    · cases Except.ok.inj h; rfl
    · cases hip : pyTimezone kv.2 <;> rw [hip] at h
      · exact absurd h (by simp)
      · cases Except.ok.inj h; rfl

theorem processEntry_columns_eq (st st2 : HState) (kv : Str × Str)
    (hk : fieldOf kv.1 ≠ some .columns)
    (h : processEntry st kv = .ok st2) : st2.columns = st.columns := by
  unfold processEntry at h
  rcases hf : fieldOf kv.1 with _ | f
  · rw [hf] at h; cases Except.ok.inj h; rfl
  · cases f <;> rw [hf] at h
    · cases hip : pyInt kv.2 <;> rw [hip] at h
      · exact absurd h (by simp)
      · cases Except.ok.inj h; rfl
    · exact absurd hf hk
    · cases Except.ok.inj h; rfl
    · cases hip : pyTimezone kv.2 <;> rw [hip] at h
      · exact absurd h (by simp)
      · cases Except.ok.inj h; rfl

theorem processEntry_sessions_mono (st st2 : HState) (kv : Str × Str)
    (h : processEntry st kv = .ok st2)
    (hs : st.sessionsRaw.isSome) : st2.sessionsRaw.isSome := by
  unfold processEntry at h
  rcases hf : fieldOf kv.1 with _ | f
  · rw [hf] at h; cases Except.ok.inj h; exact hs
  · cases f <;> rw [hf] at h
    · cases hip : pyInt kv.2 <;> rw [hip] at h
      · exact absurd h (by simp)
      · cases Except.ok.inj h; exact hs
    · cases Except.ok.inj h; exact hs
    · cases Except.ok.inj h; simp
    · cases hip : pyTimezone kv.2 <;> rw [hip] at h
      · exact absurd h (by simp)
      · cases Except.ok.inj h; exact hs

theorem foldHeaders_timezone_eq (hs : List (Str × Str)) (st st2 : HState)
    (h : ∀ kv ∈ hs, kv.1 ≠ asciiBytes "TIMEZONE_OFFSET")
    (hok : foldHeaders st hs = .ok st2) : st2.timezone = st.timezone := by
  induction hs generalizing st with
  | nil => cases Except.ok.inj hok; rfl
  | cons kv rest ih =>
    unfold foldHeaders at hok
    cases hp : processEntry st kv with
    | error e => rw [hp] at hok; exact absurd hok (by simp [exBind_error])
    | ok st1 =>
      rw [hp, exBind_ok] at hok
      have h1 : st1.timezone = st.timezone :=
        processEntry_timezone_eq st st1 kv
          (fun hc => h kv (by simp) ((fieldOf_timezone_iff kv.1).mp hc)) hp
      rw [ih st1 (fun x hx => h x (List.mem_cons_of_mem kv hx)) hok, h1]

theorem foldHeaders_tick_eq (hs : List (Str × Str)) (st st2 : HState)
    (h : ∀ kv ∈ hs, kv.1 ≠ asciiBytes "INTERVAL")
    (hok : foldHeaders st hs = .ok st2) : st2.tick = st.tick := by
  induction hs generalizing st with
  | nil => cases Except.ok.inj hok; rfl
  | cons kv rest ih =>
    unfold foldHeaders at hok
    cases hp : processEntry st kv with
    | error e => rw [hp] at hok; exact absurd hok (by simp [exBind_error])
    | ok st1 =>
      rw [hp, exBind_ok] at hok
      have h1 : st1.tick = st.tick :=
        processEntry_tick_eq st st1 kv
          (fun hc => h kv (by simp) ((fieldOf_tick_iff kv.1).mp hc)) hp
      rw [ih st1 (fun x hx => h x (List.mem_cons_of_mem kv hx)) hok, h1]

theorem foldHeaders_columns_eq (hs : List (Str × Str)) (st st2 : HState)
    (h : ∀ kv ∈ hs, kv.1 ≠ asciiBytes "COLUMNS")
    (hok : foldHeaders st hs = .ok st2) : st2.columns = st.columns := by
  induction hs generalizing st with
  | nil => cases Except.ok.inj hok; rfl
  | cons kv rest ih =>
    unfold foldHeaders at hok
    cases hp : processEntry st kv with
    | error e => rw [hp] at hok; exact absurd hok (by simp [exBind_error])
    | ok st1 =>
      rw [hp, exBind_ok] at hok
      have h1 : st1.columns = st.columns :=
        processEntry_columns_eq st st1 kv
          (fun hc => h kv (by simp) ((fieldOf_columns_iff kv.1).mp hc)) hp
      rw [ih st1 (fun x hx => h x (List.mem_cons_of_mem kv hx)) hok, h1]

theorem foldHeaders_sessions_isSome (hs : List (Str × Str)) (st st2 : HState)
    (h : ∃ kv ∈ hs, kv.1 = asciiBytes "DATA_SESSIONS")
    (hok : foldHeaders st hs = .ok st2) : st2.sessionsRaw.isSome := by
  induction hs generalizing st with
  | nil => simp at h
  | cons kv rest ih =>
    unfold foldHeaders at hok
    cases hp : processEntry st kv with
    | error e => rw [hp] at hok; exact absurd hok (by simp [exBind_error])
    | ok st1 =>
      rw [hp, exBind_ok] at hok
      rcases h with ⟨x, hx, hk⟩
      rcases List.mem_cons.mp hx with rfl | hx2
      · -- this entry is the DATA_SESSIONS one: it sets sessionsRaw,
        -- and every later entry preserves someness
        have hset : st1.sessionsRaw.isSome := by
          have hpe : processEntry st x = .ok { st with sessionsRaw := some (sessionsOf x.2) } := by
            unfold processEntry
            rw [(fieldOf_sessions_iff x.1).mpr hk]
          rw [hpe] at hp
          cases Except.ok.inj hp
          simp
        clear hp ih hx hk
        induction rest generalizing st1 with
        | nil => cases Except.ok.inj hok; exact hset
        | cons kv2 rest2 ih2 =>
          unfold foldHeaders at hok
          cases hp2 : processEntry st1 kv2 with
          | error e => rw [hp2] at hok; exact absurd hok (by simp [exBind_error])
          | ok st3 =>
            rw [hp2, exBind_ok] at hok
            exact ih2 st3 hok (processEntry_sessions_mono st1 st3 kv2 hp2 hset)
      · exact ih st1 ⟨x, hx2, hk⟩ hok

/-! ### Facts about the data section -/

theorem pyHeaderScan_data_ne_nil (tail : List Str) (h : tail ≠ []) :
    (pyHeaderScan tail).2 ≠ [] := by
  induction tail with
  | nil => exact absurd rfl h
  | cons l rest ih =>
    cases rest with
    | nil => cases hs : split2 l <;> simp [pyHeaderScan, hs]
    | cons l2 rest2 =>
      cases hs : split2 l with
      | none => simp [pyHeaderScan, hs]
      | some kv => simpa [pyHeaderScan, hs] using ih (by simp)

theorem parsePrices_cons (tz tick anchor : Option Int) (l : Str) (rest : List Str) :
    parsePrices tz tick anchor (l :: rest) =
      if startsWithA l then
        match pyInt ((timeToken l).drop 1) with
        | none => .error .valueError
        | some t =>
          match tz with
          | none => .error (.keyError "timezone")
          | some _ =>
            match parsePrices tz tick (some t) rest with
            | .error e => .error e
            | .ok rows => .ok ((t, rowValues l) :: rows)
      else
        match anchor with
        | none => .error (.nameError "last_time")
        | some a =>
          match tick with
          | none => .error (.keyError "tick")
          | some tk =>
            match pyInt (timeToken l) with
            | none => .error .valueError
            | some n =>
              match parsePrices tz tick (some a) rest with
              | .error e => .error e
              | .ok rows => .ok ((a + tk * n, rowValues l) :: rows) := rfl

theorem parsePrices_head_relative (tz tick : Option Int) (l : Str) (rest : List Str)
    (h : startsWithA l = false) :
    parsePrices tz tick none (l :: rest) = .error (.nameError "last_time") := by
  rw [parsePrices_cons, h]
  simp

theorem parsePrices_nil_anchor_error (tz tick : Option Int) (lines : List Str)
    (hne : lines ≠ []) (htz : tz = none) :
    ∃ e, parsePrices tz tick none lines = .error e := by
  cases lines with
  | nil => exact absurd rfl hne
  | cons l rest =>
    cases hA : startsWithA l with
    | false => exact ⟨_, parsePrices_head_relative tz tick l rest hA⟩
    | true =>
      rw [parsePrices_cons, hA]
      cases hpi : pyInt ((timeToken l).drop 1) with
      | none => exact ⟨.valueError, by simp⟩
      | some t => subst htz; exact ⟨.keyError "timezone", by simp [hpi]⟩

/-! ### Claims C5, C6, C7: fatal-error behaviors -/

/-- C5.  A header with a `DATA_SESSIONS` line but no `TIMEZONE_OFFSET`
line always makes the decode fail: with a nonempty session dict the
localization step raises `KeyError('timezone')`; with an empty one the
(always nonempty) data section still needs the timezone for its first row
(which must be an absolute marker) and fails there. -/
theorem claim_C5 (l0 : Str) (tail : List Str)
    (hds : ∃ kv ∈ (pyHeaderScan tail).1, kv.1 = asciiBytes "DATA_SESSIONS")
    (htz : ∀ kv ∈ (pyHeaderScan tail).1, kv.1 ≠ asciiBytes "TIMEZONE_OFFSET") :
    ∃ e, parseLines (l0 :: tail) = .error e := by
  cases tail with
  | nil => simp [pyHeaderScan] at hds
  | cons t0 ts =>
    rw [parseLines_cons]
    cases hf : foldHeaders initHState (pyHeaderScan (t0 :: ts)).1 with
    | error e => exact ⟨e, rfl⟩
    | ok st =>
      have htz2 : st.timezone = none := foldHeaders_timezone_eq _ initHState st htz hf
      have hss : st.sessionsRaw.isSome := foldHeaders_sessions_isSome _ initHState st hds hf
      rw [exBind_ok]
      rcases Option.isSome_iff_exists.mp hss with ⟨entries, hentries⟩
      cases entries with
      | nil =>
        have hloc : localizeSessions st.sessionsRaw st.timezone = .ok (some []) := by
          rw [hentries, htz2]; rfl
        rw [hloc, exBind_ok]
        rcases parsePrices_nil_anchor_error st.timezone st.tick (pyHeaderScan (t0 :: ts)).2
          (pyHeaderScan_data_ne_nil (t0 :: ts) (by simp)) htz2 with ⟨e, he⟩
        exact ⟨e, by rw [he, exBind_error]⟩
      | cons e0 es =>
        have hloc : localizeSessions st.sessionsRaw st.timezone =
            .error (.keyError "timezone") := by
          rw [hentries, htz2]; rfl
        exact ⟨.keyError "timezone", by rw [hloc, exBind_error]⟩

/-- Witness instantiating `claim_C5` on the spec's own test input
`MARKET / DATA_SESSIONS=[USA,570,960] / COLUMNS=DATE,CLOSE / a1000,1`. -/
theorem claim_C5_witness :
    ∃ e, parseLines (asciiBytes "MARKET" ::
      [asciiBytes "DATA_SESSIONS=[USA,570,960]", asciiBytes "COLUMNS=DATE,CLOSE",
       asciiBytes "a1000,1"]) = .error e :=
  claim_C5 (asciiBytes "MARKET") _ (by decide) (by decide)

/-- C6.  If a relative-offset data row precedes every absolute-marker row
then the first data row is itself relative, and the decode dies there
(`last_time` unbound) — unless an earlier header/localization error
already killed it; either way no row sequence is returned. -/
theorem claim_C6 (l0 : Str) (tail : List Str) (i : Nat)
    (hi : i < (pyHeaderScan tail).2.length)
    (hrel : startsWithA ((pyHeaderScan tail).2.getD i []) = false)
    (hbefore : ∀ j, j < i → startsWithA ((pyHeaderScan tail).2.getD j []) = false) :
    ∃ e, parseLines (l0 :: tail) = .error e := by
  cases tail with
  | nil => simp [pyHeaderScan] at hi
  | cons t0 ts =>
    have hhead : ∃ d ds, (pyHeaderScan (t0 :: ts)).2 = d :: ds ∧ startsWithA d = false := by
      rcases hdat : (pyHeaderScan (t0 :: ts)).2 with _ | ⟨d, ds⟩
      · rw [hdat] at hi; simp at hi
      · refine ⟨d, ds, rfl, ?_⟩
        cases i with
        | zero => rw [hdat] at hrel; simpa using hrel
        | succ i2 =>
          have h0 := hbefore 0 (Nat.succ_pos i2)
          rw [hdat] at h0; simpa using h0
    rcases hhead with ⟨d, ds, hdat, hd⟩
    rw [parseLines_cons]
    cases hf : foldHeaders initHState (pyHeaderScan (t0 :: ts)).1 with
    | error e => exact ⟨e, rfl⟩
    | ok st =>
      rw [exBind_ok]
      cases hloc : localizeSessions st.sessionsRaw st.timezone with
      | error e => exact ⟨e, rfl⟩
      | ok sessions =>
        rw [exBind_ok, hdat,
          parsePrices_head_relative st.timezone st.tick d ds hd, exBind_error]
        exact ⟨.nameError "last_time", rfl⟩

/-- Witness instantiating `claim_C6` on the spec's own test input
`MARKET / COLUMNS=DATE,CLOSE / 5,10.0`. -/
theorem claim_C6_witness :
    ∃ e, parseLines (asciiBytes "MARKET" ::
      [asciiBytes "COLUMNS=DATE,CLOSE", asciiBytes "5,10.0"]) = .error e :=
  claim_C6 (asciiBytes "MARKET") _ 0 (by decide) (by decide)
    (fun j hj => absurd hj (Nat.not_lt_zero j))

/-- C7.  Without a `COLUMNS` header line the local variable `columns` is
never assigned, so if nothing failed earlier the DataFrame construction
dies with `NameError('columns')`; in every case the decode returns no
result. -/
theorem claim_C7 (l0 : Str) (tail : List Str)
    (hcols : ∀ kv ∈ (pyHeaderScan tail).1, kv.1 ≠ asciiBytes "COLUMNS") :
    ∃ e, parseLines (l0 :: tail) = .error e := by
  cases tail with
  | nil => exact ⟨.nameError "header_len", rfl⟩
  | cons t0 ts =>
    rw [parseLines_cons]
    cases hf : foldHeaders initHState (pyHeaderScan (t0 :: ts)).1 with
    | error e => exact ⟨e, rfl⟩
    | ok st =>
      have hcol : st.columns = none := foldHeaders_columns_eq _ initHState st hcols hf
      rw [exBind_ok]
      cases hloc : localizeSessions st.sessionsRaw st.timezone with
      | error e => exact ⟨e, rfl⟩
      | ok sessions =>
        rw [exBind_ok]
        cases hp : parsePrices st.timezone st.tick none (pyHeaderScan (t0 :: ts)).2 with
        | error e => exact ⟨e, rfl⟩
        | ok prices =>
          have hmk : mkFrame st.columns prices = .error (.nameError "columns") := by
            rw [hcol]; rfl
          rw [exBind_ok, hmk, exBind_error]
          exact ⟨.nameError "columns", rfl⟩

/-- Witness instantiating `claim_C7` on the spec's own test input
`MARKET / INTERVAL=86400`. -/
theorem claim_C7_witness :
    ∃ e, parseLines (asciiBytes "MARKET" :: [asciiBytes "INTERVAL=86400"]) = .error e :=
  claim_C7 (asciiBytes "MARKET") _ (by decide)

/-! ### Claim C10: decoding without INTERVAL -/

theorem parsePrices_tick_none_rel (tz anchor : Option Int) (lines : List Str)
    (hrel : ∃ i, i < lines.length ∧ startsWithA (lines.getD i []) = false) :
    ∃ e, parsePrices tz none anchor lines = .error e := by
  induction lines generalizing anchor with
  | nil => rcases hrel with ⟨i, hi, _⟩; simp at hi
  | cons l rest ih =>
    cases hA : startsWithA l with
    | false =>
      rw [parsePrices_cons, hA]
      cases anchor with
      | none => exact ⟨.nameError "last_time", by simp⟩
      | some a => exact ⟨.keyError "tick", by simp⟩
    | true =>
      rw [parsePrices_cons, hA]
      cases hpi : pyInt ((timeToken l).drop 1) with
      | none => exact ⟨.valueError, by simp⟩
      | some t =>
        cases tz with
        | none => exact ⟨.keyError "timezone", by simp⟩
        | some z =>
          have hrel2 : ∃ i, i < rest.length ∧ startsWithA (rest.getD i []) = false := by
            rcases hrel with ⟨i, hi, hr⟩
            cases i with
            | zero =>
              rw [List.getD_cons_zero] at hr
              rw [hr] at hA
              cases hA
            | succ j => exact ⟨j, by simpa using hi, by simpa using hr⟩
          rcases ih (some t) hrel2 with ⟨e, he⟩
          exact ⟨e, by simp [he]⟩

def c10input : Str :=
  asciiBytes "M\nCOLUMNS=DATE,CLOSE\nTIMEZONE_OFFSET=0\na1000,5\na2000,6"

def c10metadata : Metadata := ⟨asciiBytes "M", none, none, some 0⟩

def c10frame : Frame :=
  ⟨[Cell.time 1000, Cell.time 2000], [asciiBytes "CLOSE"],
   [[Cell.str (asciiBytes "5")], [Cell.str (asciiBytes "6")]]⟩

/-- C10.  An input with at least one relative-offset data row whose header
never sets `INTERVAL` always fails (the relative branch needs
`metadata['tick']`); and an INTERVAL-free input whose data rows are all
absolute markers decodes fine, as the concrete second conjunct shows
(`c10metadata.tick = none`). -/
theorem claim_C10 :
    (∀ (l0 : Str) (tail : List Str) (i : Nat),
        i < (pyHeaderScan tail).2.length →
        startsWithA ((pyHeaderScan tail).2.getD i []) = false →
        (∀ kv ∈ (pyHeaderScan tail).1, kv.1 ≠ asciiBytes "INTERVAL") →
        ∃ e, parseLines (l0 :: tail) = .error e)
    ∧ parse_raw_stock c10input = .ok (c10metadata, c10frame) := by
  constructor
  · intro l0 tail i hi hrel hnoint
    cases tail with
    | nil => simp [pyHeaderScan] at hi
    | cons t0 ts =>
      rw [parseLines_cons]
      cases hf : foldHeaders initHState (pyHeaderScan (t0 :: ts)).1 with
      | error e => exact ⟨e, rfl⟩
      | ok st =>
        have htick : st.tick = none := foldHeaders_tick_eq _ initHState st hnoint hf
        rw [exBind_ok]
        cases hloc : localizeSessions st.sessionsRaw st.timezone with
        | error e => exact ⟨e, rfl⟩
        | ok sessions =>
          rw [exBind_ok, htick]
          rcases parsePrices_tick_none_rel st.timezone none ((pyHeaderScan (t0 :: ts)).2)
            ⟨i, hi, hrel⟩ with ⟨e, he⟩
          rw [he, exBind_error]
          exact ⟨e, rfl⟩
  · rfl

/-- Witness instantiating the universal part of `claim_C10`: a relative
row (`1,6`) with no `INTERVAL` header is fatal. -/
theorem claim_C10_witness :
    ∃ e, parseLines (asciiBytes "M" ::
      [asciiBytes "COLUMNS=DATE,CLOSE", asciiBytes "TIMEZONE_OFFSET=0",
       asciiBytes "a1000,5", asciiBytes "1,6"]) = .error e :=
  claim_C10.1 (asciiBytes "M") _ 1 (by decide) (by decide) (by decide)

/-! ### Claims C2 and C8: timestamps of decoded rows -/

/-- The value of `last_time` after processing a list of data lines,
starting from `a` (`none` = still unbound): only absolute-marker lines
reset it. -/
def anchorAfter (a : Option Int) : List Str → Option Int
  | [] => a
  | l :: rest =>
    anchorAfter (if startsWithA l then pyInt ((timeToken l).drop 1) else a) rest

/-- Full characterization of a successful data decode: one output row per
line in order, values passed through, absolute rows carrying their encoded
timestamp and relative rows carrying anchor + tick * offset. -/
theorem parsePrices_ok_spec (tz tk : Option Int) (lines : List Str) :
    ∀ (a : Option Int) (rows : List (Int × List Str)),
    parsePrices tz tk a lines = .ok rows →
    rows.length = lines.length ∧
    ∀ i, i < lines.length →
      (rows.getD i (0, [])).2 = rowValues (lines.getD i []) ∧
      (if startsWithA (lines.getD i []) then
          pyInt ((timeToken (lines.getD i [])).drop 1) = some (rows.getD i (0, [])).1
        else ∃ a0 tkv n, anchorAfter a (lines.take i) = some a0 ∧ tk = some tkv ∧
          pyInt (timeToken (lines.getD i [])) = some n ∧
          (rows.getD i (0, [])).1 = a0 + tkv * n) := by
  induction lines with
  | nil =>
    intro a rows h
    have h2 : (Except.ok [] : Except Err (List (Int × List Str))) = .ok rows := h
    cases Except.ok.inj h2
    exact ⟨rfl, fun i hi => absurd hi (by simp)⟩
  | cons l rest ih =>
    intro a rows h
    cases hA : startsWithA l with
    | true =>
      rcases hpi : pyInt ((timeToken l).tail) with _ | t
      · have hval : parsePrices tz tk a (l :: rest) = .error .valueError := by
          simp [parsePrices_cons, hA, hpi]
        rw [hval] at h; simp at h
      · cases tz with
        | none =>
          have hval : parsePrices none tk a (l :: rest) = .error (.keyError "timezone") := by
            simp [parsePrices_cons, hA, hpi]
          rw [hval] at h; simp at h
        | some z =>
          rcases hrec : parsePrices (some z) tk (some t) rest with e | rows2
          · have hval : parsePrices (some z) tk a (l :: rest) = .error e := by
              simp [parsePrices_cons, hA, hpi, hrec]
            rw [hval] at h; simp at h
          · have hval : parsePrices (some z) tk a (l :: rest) =
                .ok ((t, rowValues l) :: rows2) := by
              simp [parsePrices_cons, hA, hpi, hrec]
            rw [hval] at h
            have hrw : rows = (t, rowValues l) :: rows2 := (Except.ok.inj h).symm
            subst hrw
            have IH := ih (some t) rows2 hrec
            refine ⟨by simp [IH.1], fun i hi => ?_⟩
            cases i with
            | zero =>
              refine ⟨by simp, ?_⟩
              simp only [List.getD_cons_zero]
              rw [hA]
              simpa using hpi
            | succ i2 =>
              have hi2 : i2 < rest.length := by simpa using hi
              have IH2 := IH.2 i2 hi2
              refine ⟨by simpa using IH2.1, ?_⟩
              have htake : anchorAfter a ((l :: rest).take (i2 + 1)) =
                  anchorAfter (some t) (rest.take i2) := by
                rw [List.take_succ_cons]
                show anchorAfter (if startsWithA l then pyInt ((timeToken l).drop 1) else a)
                  (rest.take i2) = _
                rw [hA]
                simp [hpi]
              simp only [List.getD_cons_succ, htake]
              simpa using IH2.2
    | false =>
      cases a with
      | none =>
        have hval : parsePrices tz tk none (l :: rest) = .error (.nameError "last_time") := by
          simp [parsePrices_cons, hA]
        rw [hval] at h; simp at h
      | some a0 =>
        cases tk with
        | none =>
          have hval : parsePrices tz none (some a0) (l :: rest) =
              .error (.keyError "tick") := by
            simp [parsePrices_cons, hA]
          rw [hval] at h; simp at h
        | some tkv =>
          rcases hpi : pyInt (timeToken l) with _ | n
          · have hval : parsePrices tz (some tkv) (some a0) (l :: rest) =
                .error .valueError := by
              simp [parsePrices_cons, hA, hpi]
            rw [hval] at h; simp at h
          · rcases hrec : parsePrices tz (some tkv) (some a0) rest with e | rows2
            · have hval : parsePrices tz (some tkv) (some a0) (l :: rest) = .error e := by
                simp [parsePrices_cons, hA, hpi, hrec]
              rw [hval] at h; simp at h
            · have hval : parsePrices tz (some tkv) (some a0) (l :: rest) =
                  .ok ((a0 + tkv * n, rowValues l) :: rows2) := by
                simp [parsePrices_cons, hA, hpi, hrec]
              rw [hval] at h
              have hrw : rows = (a0 + tkv * n, rowValues l) :: rows2 :=
                (Except.ok.inj h).symm
              subst hrw
              have IH := ih (some a0) rows2 hrec
              refine ⟨by simp [IH.1], fun i hi => ?_⟩
              cases i with
              | zero =>
                refine ⟨by simp, ?_⟩
                simp only [List.getD_cons_zero]
                rw [hA]
                simp only [Bool.false_eq_true, if_false]
                exact ⟨a0, tkv, n, rfl, rfl, hpi, by simp⟩
              | succ i2 =>
                have hi2 : i2 < rest.length := by simpa using hi
                have IH2 := IH.2 i2 hi2
                refine ⟨by simpa using IH2.1, ?_⟩
                have htake : anchorAfter (some a0) ((l :: rest).take (i2 + 1)) =
                    anchorAfter (some a0) (rest.take i2) := by
                  rw [List.take_succ_cons]
                  show anchorAfter
                    (if startsWithA l then pyInt ((timeToken l).drop 1) else some a0)
                    (rest.take i2) = _
                  rw [hA]
                  simp
                simp only [List.getD_cons_succ, htake]
                simpa using IH2.2

theorem getD_take (l : List Str) (i n : Nat) (h : i < n) :
    (l.take n).getD i [] = l.getD i [] := by
  rw [List.getD_eq_getElem?_getD, List.getD_eq_getElem?_getD, List.getElem?_take, if_pos h]

/-- Where a defined anchor comes from: the last absolute-marker line (with
that parsed timestamp), all later lines being relative; or the initial
anchor if no line is an absolute marker. -/
theorem anchorAfter_some (xs : List Str) :
    ∀ (a : Option Int) (a0 : Int), anchorAfter a xs = some a0 →
    (∃ j, j < xs.length ∧ startsWithA (xs.getD j []) = true ∧
        pyInt ((timeToken (xs.getD j [])).drop 1) = some a0 ∧
        ∀ k, j < k → k < xs.length → startsWithA (xs.getD k []) = false)
    ∨ (a = some a0 ∧ ∀ k, k < xs.length → startsWithA (xs.getD k []) = false) := by
  induction xs with
  | nil =>
    intro a a0 h
    right
    exact ⟨h, fun k hk => absurd hk (by simp)⟩
  | cons l rest ih =>
    intro a a0 h
    have h2 : anchorAfter (if startsWithA l then pyInt ((timeToken l).drop 1) else a)
        rest = some a0 := h
    rcases ih _ a0 h2 with ⟨j, hj, habs, hpi, hafter⟩ | ⟨heq, hall⟩
    · left
      refine ⟨j + 1, by simpa using hj, by simpa using habs, by simpa using hpi,
        fun k hk1 hk2 => ?_⟩
      cases k with
      | zero => omega
      | succ k2 =>
        have := hafter k2 (by omega) (by simpa using hk2)
        simpa using this
    · cases hA : startsWithA l with
      | true =>
        left
        rw [hA] at heq
        simp only [if_true] at heq
        refine ⟨0, by simp, by simpa using hA, by simpa using heq, fun k hk1 hk2 => ?_⟩
        cases k with
        | zero => omega
        | succ k2 =>
          have := hall k2 (by simpa using hk2)
          simpa using this
      | false =>
        right
        rw [hA] at heq
        simp only [Bool.false_eq_true, if_false] at heq
        refine ⟨heq, fun k hk => ?_⟩
        cases k with
        | zero => simpa using hA
        | succ k2 =>
          have := hall k2 (by simpa using hk)
          simpa using this

/-- C2.  For every successful data decode (started, as in the source, with
`last_time` unbound), every relative row's timestamp is the timestamp of
the most recent preceding absolute-marker row plus offset times tick, and
only absolute rows reset that anchor (every row strictly between the
anchor row and the relative row is itself relative). -/
theorem claim_C2 (tz tk : Option Int) (lines : List Str) (rows : List (Int × List Str))
    (hok : parsePrices tz tk none lines = .ok rows)
    (i : Nat) (hi : i < lines.length) (n : Int)
    (hrel : startsWithA (lines.getD i []) = false)
    (hn : pyInt (timeToken (lines.getD i [])) = some n) :
    ∃ j tkv, j < i ∧ tk = some tkv ∧
      startsWithA (lines.getD j []) = true ∧
      (∀ k, j < k → k < i → startsWithA (lines.getD k []) = false) ∧
      (rows.getD i (0, [])).1 = (rows.getD j (0, [])).1 + tkv * n := by
  have hspec := parsePrices_ok_spec tz tk lines none rows hok
  have hii := (hspec.2 i hi).2
  rw [hrel] at hii
  simp only [Bool.false_eq_true, if_false] at hii
  rcases hii with ⟨a0, tkv, n2, hanch, htk, hn2, hval⟩
  have hnn : n2 = n := by
    have := hn.symm.trans hn2
    exact (Option.some.inj this).symm
  subst hnn
  rcases anchorAfter_some (lines.take i) none a0 hanch with
    ⟨j, hj, habs, hpij, hafter⟩ | ⟨hnone, _⟩
  · have hjlen : j < i := by
      rw [List.length_take] at hj
      omega
    have hgd : (lines.take i).getD j [] = lines.getD j [] := getD_take lines j i hjlen
    rw [hgd] at habs hpij
    have hjspec := (hspec.2 j (hjlen.trans hi)).2
    rw [habs] at hjspec
    simp only [if_true] at hjspec
    have ha0 : a0 = (rows.getD j (0, [])).1 :=
      Option.some.inj (hpij.symm.trans hjspec)
    refine ⟨j, tkv, hjlen, htk, habs, fun k hk1 hk2 => ?_, by rw [hval, ha0]⟩
    have := hafter k hk1 (by rw [List.length_take]; omega)
    rwa [getD_take lines k i hk2] at this
  · cases hnone

def c2wlines : List Str := [asciiBytes "a1000,5", asciiBytes "2,6"]

def c2wrows : List (Int × List Str) := [(1000, [asciiBytes "5"]), (1020, [asciiBytes "6"])]

/-- Witness instantiating `claim_C2`: with tick 10, the relative row `2,6`
after the absolute row `a1000,5` lands at 1000 + 10 * 2. -/
theorem claim_C2_witness :
    ∃ j tkv, j < 1 ∧ (some 10 : Option Int) = some tkv ∧
      startsWithA (c2wlines.getD j []) = true ∧
      (∀ k, j < k → k < 1 → startsWithA (c2wlines.getD k []) = false) ∧
      (c2wrows.getD 1 (0, [])).1 = (c2wrows.getD j (0, [])).1 + tkv * 2 :=
  claim_C2 (some 0) (some 10) c2wlines c2wrows rfl 1 (by decide) 2 (by decide) (by decide)

def c8input : Str := asciiBytes "M\nCOLUMNS=DATE,CLOSE\nTIMEZONE_OFFSET=0\na1000,5\na500,6"

def c8metadata : Metadata := ⟨asciiBytes "M", none, none, some 0⟩

def c8frame : Frame :=
  ⟨[Cell.time 1000, Cell.time 500], [asciiBytes "CLOSE"],
   [[Cell.str (asciiBytes "5")], [Cell.str (asciiBytes "6")]]⟩

/-- C8, counterexample.  Absolute markers arriving out of order decode
successfully: the resulting index is `[1000, 500]`, which is NOT
non-decreasing, so successful decodes do not guarantee ordered
timestamps. -/
theorem claim_C8_counterexample :
    parse_raw_stock c8input = .ok (c8metadata, c8frame)
    ∧ c8frame.index = [Cell.time 1000, Cell.time 500]
    ∧ ¬ ((1000 : Int) ≤ 500) :=
  ⟨rfl, rfl, by decide⟩

/-- C8, amended.  A successful decode emits exactly one row per data line,
in input line order, with the line's values passed through unchanged; but
it performs no sorting and no monotonicity check, so the timestamps of the
rows need not be non-decreasing (the decoder trusts feed order without
verifying it — see `claim_C8_counterexample`). -/
theorem claim_C8 (tz tk a : Option Int) (lines : List Str)
    (rows : List (Int × List Str))
    (hok : parsePrices tz tk a lines = .ok rows) :
    rows.length = lines.length ∧
    ∀ i, i < lines.length →
      (rows.getD i (0, [])).2 = rowValues (lines.getD i []) := by
  have h := parsePrices_ok_spec tz tk lines a rows hok
  exact ⟨h.1, fun i hi => (h.2 i hi).1⟩

/-- Witness instantiating `claim_C8` on the out-of-order input's data
section. -/
theorem claim_C8_witness :
    ([( (1000 : Int), [asciiBytes "5"]), (500, [asciiBytes "6"])].length =
      [asciiBytes "a1000,5", asciiBytes "a500,6"].length)
    ∧ ∀ i, i < [asciiBytes "a1000,5", asciiBytes "a500,6"].length →
        (([((1000 : Int), [asciiBytes "5"]), (500, [asciiBytes "6"])].getD i (0, [])).2 =
          rowValues ([asciiBytes "a1000,5", asciiBytes "a500,6"].getD i [])) :=
  claim_C8 (some 0) none none [asciiBytes "a1000,5", asciiBytes "a500,6"]
    [(1000, [asciiBytes "5"]), (500, [asciiBytes "6"])] rfl

/-! ### Claim C4: header field order independence -/

theorem exBind_assoc {α β γ : Type} (x : Except Err α) (f : α → Except Err β)
    (g : β → Except Err γ) : (x >>= f) >>= g = x >>= fun a => f a >>= g := by
  cases x <;> rfl

theorem exBind_pure {α : Type} (x : Except Err α) :
    (x >>= fun a => (Except.ok a : Except Err α)) = x := by
  cases x <;> rfl

theorem exBind_congr {α β : Type} (x : Except Err α) (f g : α → Except Err β)
    (h : ∀ a, f a = g a) : x >>= f = x >>= g := by
  cases x with
  | error e => rfl
  | ok a => exact h a

theorem splitGo_no_sep (sep : Nat) (s : List Nat) (hs : sep ∉ s) :
    ∀ acc, splitGo sep s acc = [acc.reverse ++ s] := by
  induction s with
  | nil => intro acc; simp [splitGo]
  | cons c rest ih =>
    intro acc
    have hc : (c == sep) = false := by
      simp only [beq_eq_false_iff_ne, ne_eq]
      intro hcc
      exact hs (by simp [hcc])
    rw [show splitGo sep (c :: rest) acc =
          if (c == sep) = true then acc.reverse :: splitGo sep rest []
          else splitGo sep rest (c :: acc) from rfl, hc]
    simp only [Bool.false_eq_true, if_false]
    rw [ih (fun hm => hs (List.mem_cons_of_mem c hm)) (c :: acc)]
    simp

theorem splitGo_first_sep (sep : Nat) (k : List Nat) (rest : List Nat) (hk : sep ∉ k) :
    ∀ acc, splitGo sep (k ++ sep :: rest) acc =
      (acc.reverse ++ k) :: splitGo sep rest [] := by
  induction k with
  | nil =>
    intro acc
    rw [show ([] : List Nat) ++ sep :: rest = sep :: rest from rfl]
    rw [show splitGo sep (sep :: rest) acc =
          if (sep == sep) = true then acc.reverse :: splitGo sep rest []
          else splitGo sep rest (sep :: acc) from rfl]
    simp
  | cons c k2 ih =>
    intro acc
    have hc : (c == sep) = false := by
      simp only [beq_eq_false_iff_ne, ne_eq]
      intro hcc
      exact hk (by simp [hcc])
    rw [List.cons_append]
    rw [show splitGo sep (c :: (k2 ++ sep :: rest)) acc =
          if (c == sep) = true then acc.reverse :: splitGo sep (k2 ++ sep :: rest) []
          else splitGo sep (k2 ++ sep :: rest) (c :: acc) from rfl, hc]
    simp only [Bool.false_eq_true, if_false]
    rw [ih (fun hm => hk (List.mem_cons_of_mem c hm)) (c :: acc)]
    simp

theorem pySplit_key_value (sep : Nat) (k v : List Nat) (hk : sep ∉ k) (hv : sep ∉ v) :
    pySplit sep (k ++ sep :: v) = [k, v] := by
  unfold pySplit
  rw [splitGo_first_sep sep k v hk, splitGo_no_sep sep v hv]
  simp

theorem split2_key_value (k v : Str) (hk : (61 : Nat) ∉ k) (hv : (61 : Nat) ∉ v) :
    split2 (k ++ 61 :: v) = some (k, v) := by
  unfold split2
  rw [pySplit_key_value 61 k v hk hv]

theorem splitGo_headD (sep : Nat) (s : List Nat) :
    ∀ acc, (splitGo sep s acc).headD [] =
      acc.reverse ++ s.takeWhile (fun b => !(b == sep)) := by
  induction s with
  | nil => intro acc; simp [splitGo]
  | cons c rest ih =>
    intro acc
    rw [show splitGo sep (c :: rest) acc =
          if (c == sep) = true then acc.reverse :: splitGo sep rest []
          else splitGo sep rest (c :: acc) from rfl]
    cases hc : (c == sep) with
    | true =>
      simp only [if_true]
      have : (fun b => !(b == sep)) c = false := by simp [beq_iff_eq.mp hc]
      simp [List.takeWhile_cons, this]
    | false =>
      simp only [Bool.false_eq_true, if_false]
      rw [ih (c :: acc)]
      have : (fun b => !(b == sep)) c = true := by simp [hc]
      simp [List.takeWhile_cons, this]

theorem timeToken_cons (c : Nat) (s : List Nat) (hc : c ≠ 44) :
    timeToken (c :: s) = c :: s.takeWhile (fun b => !(b == 44)) := by
  unfold timeToken pySplit
  rw [splitGo_headD]
  have : (fun b => !(b == 44)) c = true := by simp [hc]
  simp [List.takeWhile_cons, this]

theorem startsWithA_cons_ne (c : Nat) (s : List Nat) (hc : c ≠ 44) (ha : c ≠ 97) :
    startsWithA (c :: s) = false := by
  unfold startsWithA
  rw [timeToken_cons c s hc]
  simp [ha]

theorem pyHeaderScan_append (hs rest : List Str) (hh : ∀ l ∈ hs, isHdrLine l = true)
    (hr : rest ≠ []) :
    pyHeaderScan (hs ++ rest) =
      (hs.map kvOf ++ (pyHeaderScan rest).1, (pyHeaderScan rest).2) := by
  induction hs with
  | nil => simp
  | cons l hs2 ih =>
    have hl := hh l (by simp)
    rcases hkv : split2 l with _ | kv
    · rw [isHdrLine, hkv] at hl
      simp at hl
    · have hne : hs2 ++ rest ≠ [] := by
        intro hcon
        exact hr (List.append_eq_nil.mp hcon).2
      rcases hx : hs2 ++ rest with _ | ⟨x, xs⟩
      · exact absurd hx hne
      · have hstep : pyHeaderScan (l :: (hs2 ++ rest)) =
            (kv :: (pyHeaderScan (hs2 ++ rest)).1, (pyHeaderScan (hs2 ++ rest)).2) := by
          rw [hx]
          simp [pyHeaderScan, hkv]
        rw [List.cons_append, hstep, ih (fun y hy => hh y (by simp [hy]))]
        have hkvl : kvOf l = kv := by simp [kvOf, hkv]
        simp [hkvl]

theorem pyHeaderScan_all (hs : List Str) (l : Str)
    (hh : ∀ x ∈ hs, isHdrLine x = true) (hl : isHdrLine l = true) :
    pyHeaderScan (hs ++ [l]) = (hs.map kvOf ++ [kvOf l], [l]) := by
  induction hs with
  | nil =>
    rcases hkv : split2 l with _ | kv
    · rw [isHdrLine, hkv] at hl
      simp at hl
    · simp [pyHeaderScan, hkv, kvOf]
  | cons x hs2 ih =>
    have hx := hh x (by simp)
    rcases hkv : split2 x with _ | kv
    · rw [isHdrLine, hkv] at hx
      simp at hx
    · rcases hsh : hs2 ++ [l] with _ | ⟨y, ys⟩
      · exact absurd hsh (by simp)
      · have hstep : pyHeaderScan (x :: (hs2 ++ [l])) =
            (kv :: (pyHeaderScan (hs2 ++ [l])).1, (pyHeaderScan (hs2 ++ [l])).2) := by
          rw [hsh]
          simp [pyHeaderScan, hkv]
        rw [List.cons_append, hstep, ih (fun y hy => hh y (by simp [hy]))]
        have hkvx : kvOf x = kv := by simp [kvOf, hkv]
        simp [hkvx]

theorem foldHeaders_append (st : HState) (xs ys : List (Str × Str)) :
    foldHeaders st (xs ++ ys) = (foldHeaders st xs) >>= fun st2 => foldHeaders st2 ys := by
  induction xs generalizing st with
  | nil => rw [show foldHeaders st [] = .ok st from rfl, exBind_ok, List.nil_append]
  | cons kv xs2 ih =>
    rw [List.cons_append,
      show foldHeaders st (kv :: (xs2 ++ ys)) =
        processEntry st kv >>= fun s => foldHeaders s (xs2 ++ ys) from rfl,
      show foldHeaders st (kv :: xs2) =
        processEntry st kv >>= fun s => foldHeaders s xs2 from rfl,
      exBind_assoc]
    exact exBind_congr _ _ _ (fun s => ih s)

theorem processEntry_comm (e1 e2 : Str × Str) (st : HState)
    (h : fieldOf e1.1 = none ∨ fieldOf e2.1 = none ∨ fieldOf e1.1 ≠ fieldOf e2.1) :
    (processEntry st e1 >>= fun s => processEntry s e2) =
    (processEntry st e2 >>= fun s => processEntry s e1) := by
  rcases hf1 : fieldOf e1.1 with _ | f1
  · have h1 : ∀ s, processEntry s e1 = .ok s := fun s => by
      unfold processEntry; rw [hf1]
    simp only [h1, exBind_ok, exBind_pure]
  · rcases hf2 : fieldOf e2.1 with _ | f2
    · have h2 : ∀ s, processEntry s e2 = .ok s := fun s => by
        unfold processEntry; rw [hf2]
      simp only [h2, exBind_ok, exBind_pure]
    · have hne : f1 ≠ f2 := by
        rcases h with hx | hx | hx
        · rw [hf1] at hx; cases hx
        · rw [hf2] at hx; cases hx
        · rw [hf1, hf2] at hx
          intro hcon
          exact hx (by rw [hcon])
      cases f1 <;> cases f2 <;> (try exact absurd rfl hne) <;>
        simp only [processEntry, hf1, hf2] <;>
        rcases h11 : pyInt e1.2 with _ | n1 <;>
        rcases h12 : pyTimezone e1.2 with _ | m1 <;>
        rcases h21 : pyInt e2.2 with _ | n2 <;>
        rcases h22 : pyTimezone e2.2 with _ | m2 <;>
        simp only [h11, h12, h21, h22, exBind_ok, exBind_error]

theorem foldHeaders_comm_adj (e1 e2 : Str × Str) (rest : List (Str × Str)) (st : HState)
    (h : fieldOf e1.1 = none ∨ fieldOf e2.1 = none ∨ fieldOf e1.1 ≠ fieldOf e2.1) :
    foldHeaders st (e1 :: e2 :: rest) = foldHeaders st (e2 :: e1 :: rest) := by
  have key := processEntry_comm e1 e2 st h
  show (processEntry st e1 >>= fun s1 => processEntry s1 e2 >>= fun s2 => foldHeaders s2 rest) =
    (processEntry st e2 >>= fun s1 => processEntry s1 e1 >>= fun s2 => foldHeaders s2 rest)
  rw [show (processEntry st e1 >>= fun s1 => processEntry s1 e2 >>= fun s2 => foldHeaders s2 rest) =
        (processEntry st e1 >>= fun s1 => processEntry s1 e2) >>= fun s2 => foldHeaders s2 rest from
      (exBind_assoc _ _ _).symm,
    show (processEntry st e2 >>= fun s1 => processEntry s1 e1 >>= fun s2 => foldHeaders s2 rest) =
        (processEntry st e2 >>= fun s1 => processEntry s1 e1) >>= fun s2 => foldHeaders s2 rest from
      (exBind_assoc _ _ _).symm,
    key]

theorem foldHeaders_bubble (mids : List (Str × Str)) (e : Str × Str) (rest : List (Str × Str))
    (h : ∀ m ∈ mids, fieldOf e.1 = none ∨ fieldOf m.1 = none ∨ fieldOf e.1 ≠ fieldOf m.1) :
    ∀ st, foldHeaders st (e :: (mids ++ rest)) = foldHeaders st (mids ++ e :: rest) := by
  induction mids with
  | nil => intro st; rfl
  | cons m mids2 ih =>
    intro st
    have hcomm := foldHeaders_comm_adj e m (mids2 ++ rest) st (h m (by simp))
    rw [show (m :: mids2) ++ rest = m :: (mids2 ++ rest) from rfl, hcomm,
      show foldHeaders st (m :: e :: (mids2 ++ rest)) =
        processEntry st m >>= fun s => foldHeaders s (e :: (mids2 ++ rest)) from rfl,
      show (m :: mids2) ++ e :: rest = m :: (mids2 ++ e :: rest) from rfl,
      show foldHeaders st (m :: (mids2 ++ e :: rest)) =
        processEntry st m >>= fun s => foldHeaders s (mids2 ++ e :: rest) from rfl]
    exact exBind_congr _ _ _ (fun s => ih (fun x hx => h x (by simp [hx])) s)

theorem foldHeaders_mid_swap (xs : List (Str × Str)) (e1 e2 : Str × Str)
    (rest : List (Str × Str))
    (h : fieldOf e1.1 = none ∨ fieldOf e2.1 = none ∨ fieldOf e1.1 ≠ fieldOf e2.1) :
    ∀ st, foldHeaders st (xs ++ e1 :: e2 :: rest) = foldHeaders st (xs ++ e2 :: e1 :: rest) := by
  induction xs with
  | nil => intro st; exact foldHeaders_comm_adj e1 e2 rest st h
  | cons x xs2 ih =>
    intro st
    rw [List.cons_append, List.cons_append,
      show foldHeaders st (x :: (xs2 ++ e1 :: e2 :: rest)) =
        processEntry st x >>= fun s => foldHeaders s (xs2 ++ e1 :: e2 :: rest) from rfl,
      show foldHeaders st (x :: (xs2 ++ e2 :: e1 :: rest)) =
        processEntry st x >>= fun s => foldHeaders s (xs2 ++ e2 :: e1 :: rest) from rfl]
    exact exBind_congr _ _ _ (fun s => ih s)

/-- The TIMEZONE_OFFSET and DATA_SESSIONS entries commute across header
entries that carry neither key. -/
theorem foldHeaders_swap_tz_ds (P M R : List (Str × Str)) (tzv sv : Str) (st : HState)
    (hM : ∀ m ∈ M, m.1 ≠ asciiBytes "TIMEZONE_OFFSET" ∧ m.1 ≠ asciiBytes "DATA_SESSIONS") :
    foldHeaders st
      (P ++ ((asciiBytes "TIMEZONE_OFFSET", tzv) ::
        (M ++ (asciiBytes "DATA_SESSIONS", sv) :: R))) =
    foldHeaders st
      (P ++ ((asciiBytes "DATA_SESSIONS", sv) ::
        (M ++ (asciiBytes "TIMEZONE_OFFSET", tzv) :: R))) := by
  have htzf : fieldOf (asciiBytes "TIMEZONE_OFFSET") = some .timezone := rfl
  have hdsf : fieldOf (asciiBytes "DATA_SESSIONS") = some .sessions := rfl
  have hMtz : ∀ m ∈ M, fieldOf (asciiBytes "TIMEZONE_OFFSET", tzv).1 = none ∨
      fieldOf m.1 = none ∨ fieldOf (asciiBytes "TIMEZONE_OFFSET", tzv).1 ≠ fieldOf m.1 := by
    intro m hm
    right; right
    rw [htzf]
    intro hcon
    exact (hM m hm).1 ((fieldOf_timezone_iff m.1).mp hcon.symm)
  have hMds : ∀ m ∈ M, fieldOf (asciiBytes "DATA_SESSIONS", sv).1 = none ∨
      fieldOf m.1 = none ∨ fieldOf (asciiBytes "DATA_SESSIONS", sv).1 ≠ fieldOf m.1 := by
    intro m hm
    right; right
    rw [hdsf]
    intro hcon
    exact (hM m hm).2 ((fieldOf_sessions_iff m.1).mp hcon.symm)
  rw [foldHeaders_append, foldHeaders_append]
  refine exBind_congr _ _ _ (fun s => ?_)
  calc foldHeaders s ((asciiBytes "TIMEZONE_OFFSET", tzv) ::
        (M ++ (asciiBytes "DATA_SESSIONS", sv) :: R))
      = foldHeaders s (M ++ (asciiBytes "TIMEZONE_OFFSET", tzv) ::
          (asciiBytes "DATA_SESSIONS", sv) :: R) :=
        foldHeaders_bubble M _ _ hMtz s
    _ = foldHeaders s (M ++ (asciiBytes "DATA_SESSIONS", sv) ::
          (asciiBytes "TIMEZONE_OFFSET", tzv) :: R) :=
        foldHeaders_mid_swap M _ _ R (by rw [htzf, hdsf]; simp) s
    _ = foldHeaders s ((asciiBytes "DATA_SESSIONS", sv) ::
          (M ++ (asciiBytes "TIMEZONE_OFFSET", tzv) :: R)) :=
        (foldHeaders_bubble M _ _ hMds s).symm

theorem parsePrices_ok_tz (tz tk : Option Int) (lines : List Str)
    (rows : List (Int × List Str))
    (h : parsePrices tz tk none lines = .ok rows) (hne : lines ≠ []) :
    ∃ z, tz = some z := by
  cases lines with
  | nil => exact absurd rfl hne
  | cons l rest =>
    cases tz with
    | some z => exact ⟨z, rfl⟩
    | none =>
      cases hA : startsWithA l with
      | false =>
        rw [parsePrices_head_relative none tk l rest hA] at h
        simp at h
      | true =>
        rcases hpi : pyInt ((timeToken l).tail) with _ | t
        · have hval : parsePrices none tk none (l :: rest) = .error .valueError := by
            simp [parsePrices_cons, hA, hpi]
          rw [hval] at h
          simp at h
        · have hval : parsePrices none tk none (l :: rest) =
              .error (.keyError "timezone") := by
            simp [parsePrices_cons, hA, hpi]
          rw [hval] at h
          simp at h

theorem localizeEntry_tz (z : Int) (a : Str × Nat × Nat) (b : Str × Session)
    (h : localizeEntry (some z) a = .ok b) :
    b.2.startTime.tzMin = z ∧ b.2.endTime.tzMin = z := by
  unfold localizeEntry at h
  dsimp only at h
  split_ifs at h with h1 h2
  all_goals (cases Except.ok.inj h; exact ⟨rfl, rfl⟩)

theorem mapExcept_localize_tz (z : Int) (entries : List (Str × Nat × Nat)) :
    ∀ l, mapExcept (localizeEntry (some z)) entries = .ok l →
      ∀ e ∈ l, e.2.startTime.tzMin = z ∧ e.2.endTime.tzMin = z := by
  induction entries with
  | nil =>
    intro l h e he
    have h2 : (Except.ok [] : Except Err (List (Str × Session))) = .ok l := h
    cases Except.ok.inj h2
    simp at he
  | cons a rest ih =>
    intro l h e he
    cases hfa : localizeEntry (some z) a with
    | error er =>
      have hval : mapExcept (localizeEntry (some z)) (a :: rest) = .error er := by
        show (localizeEntry (some z) a >>= fun b =>
          mapExcept (localizeEntry (some z)) rest >>= fun bs => .ok (b :: bs)) = _
        rw [hfa, exBind_error]
      rw [hval] at h
      simp at h
    | ok b =>
      cases hrest : mapExcept (localizeEntry (some z)) rest with
      | error er =>
        have hval : mapExcept (localizeEntry (some z)) (a :: rest) = .error er := by
          show (localizeEntry (some z) a >>= fun b =>
            mapExcept (localizeEntry (some z)) rest >>= fun bs => .ok (b :: bs)) = _
          rw [hfa, exBind_ok, hrest, exBind_error]
        rw [hval] at h
        simp at h
      | ok bs =>
        have hval : mapExcept (localizeEntry (some z)) (a :: rest) = .ok (b :: bs) := by
          show (localizeEntry (some z) a >>= fun b2 =>
            mapExcept (localizeEntry (some z)) rest >>= fun bs2 => .ok (b2 :: bs2)) = _
          rw [hfa, exBind_ok, hrest, exBind_ok]
        rw [hval] at h
        cases Except.ok.inj h
        rcases List.mem_cons.mp he with rfl | he2
        · exact localizeEntry_tz z a e hfa
        · exact ih bs hrest e he2

theorem localizeSessions_tz (raw : Option (List (Str × Nat × Nat))) (z : Int)
    (ss : List (Str × Session))
    (h : localizeSessions raw (some z) = .ok (some ss)) :
    ∀ e ∈ ss, e.2.startTime.tzMin = z ∧ e.2.endTime.tzMin = z := by
  cases raw with
  | none =>
    have h2 : (Except.ok none : Except Err (Option (List (Str × Session)))) =
        .ok (some ss) := h
    cases Except.ok.inj h2
  | some entries =>
    cases hm : mapExcept (localizeEntry (some z)) entries with
    | error e =>
      have hval : localizeSessions (some entries) (some z) = .error e := by
        show (mapExcept (localizeEntry (some z)) entries >>= fun l => .ok (some l)) = _
        rw [hm, exBind_error]
      rw [hval] at h
      simp at h
    | ok l =>
      have hval : localizeSessions (some entries) (some z) = .ok (some l) := by
        show (mapExcept (localizeEntry (some z)) entries >>= fun l2 => .ok (some l2)) = _
        rw [hm, exBind_ok]
      rw [hval] at h
      have hls : l = ss := Option.some.inj (Except.ok.inj h)
      subst hls
      exact mapExcept_localize_tz z entries l hm

theorem parseLines_ok_parts (lines : List Str) (md : Metadata) (fr : Frame)
    (h : parseLines lines = .ok (md, fr)) :
    ∃ l0 t0 ts st sessions prices,
      lines = l0 :: t0 :: ts ∧
      foldHeaders initHState (pyHeaderScan (t0 :: ts)).1 = .ok st ∧
      localizeSessions st.sessionsRaw st.timezone = .ok sessions ∧
      parsePrices st.timezone st.tick none (pyHeaderScan (t0 :: ts)).2 = .ok prices ∧
      mkFrame st.columns prices = .ok fr ∧
      md = ⟨pyUnquote l0, st.tick, sessions, st.timezone⟩ := by
  cases lines with
  | nil => simp [parseLines] at h
  | cons l0 tail =>
    cases tail with
    | nil => simp [parseLines] at h
    | cons t0 ts =>
      rw [parseLines_cons] at h
      rcases hf : foldHeaders initHState (pyHeaderScan (t0 :: ts)).1 with e | st
      · rw [hf, exBind_error] at h
        simp at h
      · rw [hf, exBind_ok] at h
        rcases hloc : localizeSessions st.sessionsRaw st.timezone with e | sessions
        · rw [hloc, exBind_error] at h
          simp at h
        · rw [hloc, exBind_ok] at h
          rcases hp : parsePrices st.timezone st.tick none (pyHeaderScan (t0 :: ts)).2
            with e | prices
          · rw [hp, exBind_error] at h
            simp at h
          · rw [hp, exBind_ok] at h
            rcases hmk : mkFrame st.columns prices with e | fr2
            · rw [hmk, exBind_error] at h
              simp at h
            · rw [hmk, exBind_ok] at h
              have hpair := Except.ok.inj h
              have hmd : md = ⟨pyUnquote l0, st.tick, sessions, st.timezone⟩ :=
                (congrArg Prod.fst hpair).symm
              have hfr : fr2 = fr := congrArg Prod.snd hpair
              exact ⟨l0, t0, ts, st, sessions, prices, rfl, hf, hloc, hp, hfr ▸ hmk, hmd⟩

theorem parseLines_cons2 (l0 : Str) (tail : List Str) (h : tail ≠ []) :
    parseLines (l0 :: tail) =
      (foldHeaders initHState (pyHeaderScan tail).1 >>= fun st =>
        localizeSessions st.sessionsRaw st.timezone >>= fun sessions =>
          parsePrices st.timezone st.tick none (pyHeaderScan tail).2 >>= fun prices =>
            mkFrame st.columns prices >>= fun fr =>
              .ok (⟨pyUnquote l0, st.tick, sessions, st.timezone⟩, fr)) := by
  cases tail with
  | nil => exact absurd rfl h
  | cons t0 ts => exact parseLines_cons l0 t0 ts

/-- A `TIMEZONE_OFFSET=<value>` header line. -/
def tzLine (v : Str) : Str := asciiBytes "TIMEZONE_OFFSET" ++ 61 :: v

/-- A `DATA_SESSIONS=<value>` header line. -/
def dsLine (v : Str) : Str := asciiBytes "DATA_SESSIONS" ++ 61 :: v

/-- C4.  First conjunct: swapping the relative order of the
`TIMEZONE_OFFSET` and `DATA_SESSIONS` header lines (across header lines
carrying neither key) produces the same decode result, because session
localization runs only after the whole header scan.  Second conjunct: in
every successful decode, every session's start and end times carry the
fixed-offset zone parsed from `TIMEZONE_OFFSET`. -/
theorem claim_C4 :
    (∀ (m : Str) (pre mid post : List Str) (tzv sv : Str),
        (∀ l ∈ pre, isHdrLine l = true) →
        (∀ l ∈ mid, isHdrLine l = true ∧ (kvOf l).1 ≠ asciiBytes "TIMEZONE_OFFSET" ∧
          (kvOf l).1 ≠ asciiBytes "DATA_SESSIONS") →
        (61 : Nat) ∉ tzv → (61 : Nat) ∉ sv →
        parseLines (m :: (pre ++ tzLine tzv :: (mid ++ dsLine sv :: post))) =
        parseLines (m :: (pre ++ dsLine sv :: (mid ++ tzLine tzv :: post)))) ∧
    (∀ (lines : List Str) (md : Metadata) (fr : Frame) (ss : List (Str × Session)),
        parseLines lines = .ok (md, fr) → md.sessions = some ss →
        ∃ z, md.timezone = some z ∧
          ∀ e ∈ ss, e.2.startTime.tzMin = z ∧ e.2.endTime.tzMin = z) := by
  constructor
  · intro m pre mid post tzv sv hpre hmid htzv hsv
    have htzl2 : split2 (tzLine tzv) = some (asciiBytes "TIMEZONE_OFFSET", tzv) :=
      split2_key_value _ _ (by decide) htzv
    have hdsl2 : split2 (dsLine sv) = some (asciiBytes "DATA_SESSIONS", sv) :=
      split2_key_value _ _ (by decide) hsv
    have htzh : isHdrLine (tzLine tzv) = true := by simp [isHdrLine, htzl2]
    have hdsh : isHdrLine (dsLine sv) = true := by simp [isHdrLine, hdsl2]
    have hkvtz : kvOf (tzLine tzv) = (asciiBytes "TIMEZONE_OFFSET", tzv) := by
      simp [kvOf, htzl2]
    have hkvds : kvOf (dsLine sv) = (asciiBytes "DATA_SESSIONS", sv) := by
      simp [kvOf, hdsl2]
    have hM : ∀ m2 ∈ mid.map kvOf, m2.1 ≠ asciiBytes "TIMEZONE_OFFSET" ∧
        m2.1 ≠ asciiBytes "DATA_SESSIONS" := by
      intro m2 hm2
      rcases List.mem_map.mp hm2 with ⟨l, hl, rfl⟩
      exact ⟨(hmid l hl).2.1, (hmid l hl).2.2⟩
    have hh1 : ∀ l ∈ pre ++ tzLine tzv :: mid, isHdrLine l = true := by
      intro l hl
      rcases List.mem_append.mp hl with hl2 | hl2
      · exact hpre l hl2
      · rcases List.mem_cons.mp hl2 with rfl | hl3
        · exact htzh
        · exact (hmid l hl3).1
    have hh2 : ∀ l ∈ pre ++ dsLine sv :: mid, isHdrLine l = true := by
      intro l hl
      rcases List.mem_append.mp hl with hl2 | hl2
      · exact hpre l hl2
      · rcases List.mem_cons.mp hl2 with rfl | hl3
        · exact hdsh
        · exact (hmid l hl3).1
    rcases post with _ | ⟨p0, ps⟩
    · -- all lines are headers: the swapped line also becomes the sole data
      -- line, and in both orders that data line is relative and fatal
      have e1 : pre ++ tzLine tzv :: (mid ++ dsLine sv :: ([] : List Str)) =
          (pre ++ tzLine tzv :: mid) ++ [dsLine sv] := by simp
      have e2 : pre ++ dsLine sv :: (mid ++ tzLine tzv :: ([] : List Str)) =
          (pre ++ dsLine sv :: mid) ++ [tzLine tzv] := by simp
      rw [e1, e2, parseLines_cons2 m _ (by simp), parseLines_cons2 m _ (by simp),
        pyHeaderScan_all (pre ++ tzLine tzv :: mid) (dsLine sv) hh1 hdsh,
        pyHeaderScan_all (pre ++ dsLine sv :: mid) (tzLine tzv) hh2 htzh]
      simp only [List.map_append, List.map_cons, hkvtz, hkvds, List.append_assoc,
        List.cons_append, List.singleton_append]
      rw [foldHeaders_swap_tz_ds (pre.map kvOf) (mid.map kvOf) [] tzv sv initHState hM]
      refine exBind_congr _ _ _ (fun st => ?_)
      refine exBind_congr _ _ _ (fun sessions => ?_)
      have hdsrel : startsWithA (dsLine sv) = false := by
        have : dsLine sv = 68 :: (asciiBytes "ATA_SESSIONS" ++ 61 :: sv) := rfl
        rw [this]
        exact startsWithA_cons_ne 68 _ (by decide) (by decide)
      have htzrel : startsWithA (tzLine tzv) = false := by
        have : tzLine tzv = 84 :: (asciiBytes "IMEZONE_OFFSET" ++ 61 :: tzv) := rfl
        rw [this]
        exact startsWithA_cons_ne 84 _ (by decide) (by decide)
      rw [parsePrices_head_relative st.timezone st.tick _ _ hdsrel,
        parsePrices_head_relative st.timezone st.tick _ _ htzrel]
    · -- a real data section follows: both orders consume the same headers
      -- and decode the same data lines
      have e1 : pre ++ tzLine tzv :: (mid ++ dsLine sv :: (p0 :: ps)) =
          (pre ++ tzLine tzv :: (mid ++ [dsLine sv])) ++ (p0 :: ps) := by simp
      have e2 : pre ++ dsLine sv :: (mid ++ tzLine tzv :: (p0 :: ps)) =
          (pre ++ dsLine sv :: (mid ++ [tzLine tzv])) ++ (p0 :: ps) := by simp
      have hh1b : ∀ l ∈ pre ++ tzLine tzv :: (mid ++ [dsLine sv]), isHdrLine l = true := by
        intro l hl
        rcases List.mem_append.mp hl with hl2 | hl2
        · exact hpre l hl2
        · rcases List.mem_cons.mp hl2 with rfl | hl3
          · exact htzh
          · rcases List.mem_append.mp hl3 with hl4 | hl4
            · exact (hmid l hl4).1
            · rcases List.mem_singleton.mp hl4 with rfl
              exact hdsh
      have hh2b : ∀ l ∈ pre ++ dsLine sv :: (mid ++ [tzLine tzv]), isHdrLine l = true := by
        intro l hl
        rcases List.mem_append.mp hl with hl2 | hl2
        · exact hpre l hl2
        · rcases List.mem_cons.mp hl2 with rfl | hl3
          · exact hdsh
          · rcases List.mem_append.mp hl3 with hl4 | hl4
            · exact (hmid l hl4).1
            · rcases List.mem_singleton.mp hl4 with rfl
              exact htzh
      rw [e1, e2, parseLines_cons2 m _ (by simp), parseLines_cons2 m _ (by simp),
        pyHeaderScan_append _ (p0 :: ps) hh1b (by simp),
        pyHeaderScan_append _ (p0 :: ps) hh2b (by simp)]
      simp only [List.map_append, List.map_cons, List.map_nil, hkvtz, hkvds,
        List.append_assoc, List.cons_append, List.singleton_append, List.nil_append]
      rw [foldHeaders_swap_tz_ds (pre.map kvOf) (mid.map kvOf)
        ((pyHeaderScan (p0 :: ps)).1) tzv sv initHState hM]
  · intro lines md fr ss h hss
    rcases parseLines_ok_parts lines md fr h with
      ⟨l0, t0, ts, st, sessions, prices, hlines, hf, hloc, hp, hmk, hmd⟩
    rcases parsePrices_ok_tz st.timezone st.tick _ prices hp
      (pyHeaderScan_data_ne_nil (t0 :: ts) (by simp)) with ⟨z, hz⟩
    refine ⟨z, ?_, ?_⟩
    · rw [hmd]
      exact hz
    · have hsess : sessions = some ss := by
        rw [hmd] at hss
        exact hss
      subst hsess
      rw [hz] at hloc
      exact localizeSessions_tz st.sessionsRaw z ss hloc

def c4wlines : List Str :=
  [asciiBytes "M", asciiBytes "DATA_SESSIONS=[USA,570,960]",
   asciiBytes "TIMEZONE_OFFSET=-300", asciiBytes "COLUMNS=DATE,CLOSE", asciiBytes "a1000,5"]

def c4wss : List (Str × Session) := [(asciiBytes "USA", ⟨⟨9, 30, -300⟩, ⟨16, 0, -300⟩⟩)]

def c4wmd : Metadata := ⟨asciiBytes "M", none, some c4wss, some (-300)⟩

def c4wfr : Frame := ⟨[Cell.time 1000], [asciiBytes "CLOSE"], [[Cell.str (asciiBytes "5")]]⟩

/-- Witness instantiating both conjuncts of `claim_C4` on concrete
inputs: a swapped pair of headers around an `INTERVAL` line, and a
successful decode whose session times carry the parsed zone. -/
theorem claim_C4_witness :
    (parseLines (asciiBytes "M" :: ([] ++ tzLine (asciiBytes "-300") ::
        ([asciiBytes "INTERVAL=60"] ++ dsLine (asciiBytes "[USA,570,960]") ::
          [asciiBytes "a9,1"]))) =
      parseLines (asciiBytes "M" :: ([] ++ dsLine (asciiBytes "[USA,570,960]") ::
        ([asciiBytes "INTERVAL=60"] ++ tzLine (asciiBytes "-300") ::
          [asciiBytes "a9,1"]))))
    ∧ (∃ z, c4wmd.timezone = some z ∧
        ∀ e ∈ c4wss, e.2.startTime.tzMin = z ∧ e.2.endTime.tzMin = z) :=
  ⟨claim_C4.1 (asciiBytes "M") [] [asciiBytes "INTERVAL=60"] [asciiBytes "a9,1"]
      (asciiBytes "-300") (asciiBytes "[USA,570,960]")
      (by intro l hl; cases hl) (by decide) (by decide) (by decide),
   claim_C4.2 c4wlines c4wmd c4wfr c4wss rfl rfl⟩

/-! ### Claim C9: percent-encoding round trip for the market label -/

theorem pyUnquote_cons_ne (b : Nat) (X : Str) (hb : b ≠ 37) :
    pyUnquote (b :: X) = b :: pyUnquote X := by
  rcases X with _ | ⟨a, _ | ⟨c, r⟩⟩ <;> simp [pyUnquote, hb]

theorem hexDigitU_spec (n : Nat) (h : n < 16) :
    pyIsHexDigit (hexDigitU n) = true ∧ hexVal (hexDigitU n) = n := by
  interval_cases n <;> exact ⟨rfl, rfl⟩

theorem pyUnquote_pyQuote (l : Str) (h256 : ∀ b ∈ l, b < 256) :
    pyUnquote (pyQuote l) = l := by
  induction l with
  | nil => rfl
  | cons b rest ih =>
    have hrest := fun x hx => h256 x (List.mem_cons_of_mem b hx)
    have hq : pyQuote (b :: rest) = quoteByte b ++ pyQuote rest := by
      simp [pyQuote]
    rw [hq]
    by_cases hsafe : pyQuoteSafe b = true
    · have hqb : quoteByte b = [b] := by simp [quoteByte, hsafe]
      have hb37 : b ≠ 37 := by
        intro hcon
        subst hcon
        simp [pyQuoteSafe] at hsafe
      rw [hqb, List.singleton_append, pyUnquote_cons_ne b _ hb37, ih hrest]
    · have hqb : quoteByte b = [37, hexDigitU (b / 16), hexDigitU (b % 16)] := by
        simp [quoteByte, hsafe]
      have hb : b < 256 := h256 b (by simp)
      have h1 := hexDigitU_spec (b / 16) (by omega)
      have h2 := hexDigitU_spec (b % 16) (by omega)
      rw [hqb]
      show pyUnquote (37 :: hexDigitU (b / 16) :: hexDigitU (b % 16) :: pyQuote rest) =
        b :: rest
      rw [show pyUnquote (37 :: hexDigitU (b / 16) :: hexDigitU (b % 16) :: pyQuote rest) =
            if pyIsHexDigit (hexDigitU (b / 16)) && pyIsHexDigit (hexDigitU (b % 16)) then
              (16 * hexVal (hexDigitU (b / 16)) + hexVal (hexDigitU (b % 16))) ::
                pyUnquote (pyQuote rest)
            else 37 :: pyUnquote (hexDigitU (b / 16) :: hexDigitU (b % 16) :: pyQuote rest)
          from rfl, h1.1, h2.1]
      simp only [Bool.and_self, if_true]
      rw [h1.2, h2.2, ih hrest]
      congr 1
      omega

theorem quoteByte_ne_nil (b : Nat) : quoteByte b ≠ [] := by
  unfold quoteByte
  split_ifs <;> simp

theorem pyQuote_ne_nil (l : Str) (h : l ≠ []) : pyQuote l ≠ [] := by
  cases l with
  | nil => exact absurd rfl h
  | cons b rest =>
    have hq : pyQuote (b :: rest) = quoteByte b ++ pyQuote rest := by simp [pyQuote]
    rw [hq]
    intro hcon
    exact quoteByte_ne_nil b (List.append_eq_nil.mp hcon).1

theorem safe_not_space (b : Nat) (h : pyQuoteSafe b = true) :
    pyIsSpace b = false ∧ pyIsLineBreak b = false := by
  unfold pyQuoteSafe at h
  unfold pyIsSpace pyIsLineBreak
  simp only [Bool.or_eq_true, Bool.and_eq_true, beq_iff_eq, decide_eq_true_eq] at h
  simp only [Bool.or_eq_false_iff, beq_eq_false_iff_ne, ne_eq]
  constructor <;> constructor <;> omega

theorem hexDigitU_not_space (n : Nat) (h : n < 16) :
    pyIsSpace (hexDigitU n) = false ∧ pyIsLineBreak (hexDigitU n) = false := by
  interval_cases n <;> exact ⟨rfl, rfl⟩

theorem pyQuote_not_space (l : Str) (h256 : ∀ b ∈ l, b < 256) :
    ∀ x ∈ pyQuote l, pyIsSpace x = false ∧ pyIsLineBreak x = false := by
  intro x hx
  have hx2 : x ∈ (l.map quoteByte).flatten := by simpa [pyQuote] using hx
  rcases List.mem_flatten.mp hx2 with ⟨sub, hsub, hxsub⟩
  rcases List.mem_map.mp hsub with ⟨b, hb, rfl⟩
  have hb256 : b < 256 := h256 b hb
  by_cases hsafe : pyQuoteSafe b = true
  · rw [show quoteByte b = [b] from by simp [quoteByte, hsafe]] at hxsub
    rcases List.mem_singleton.mp hxsub with rfl
    exact safe_not_space x hsafe
  · rw [show quoteByte b = [37, hexDigitU (b / 16), hexDigitU (b % 16)] from by
        simp [quoteByte, hsafe]] at hxsub
    simp only [List.mem_cons, List.mem_singleton, List.not_mem_nil, or_false] at hxsub
    rcases hxsub with rfl | rfl | rfl
    · exact ⟨rfl, rfl⟩
    · exact hexDigitU_not_space (b / 16) (by omega)
    · exact hexDigitU_not_space (b % 16) (by omega)

theorem pyLStrip_cons_not_space (c : Nat) (s : Str) (hc : pyIsSpace c = false) :
    pyLStrip (c :: s) = c :: s := by
  unfold pyLStrip
  rw [List.dropWhile_cons, hc]
  simp

theorem pyRStrip_append (q t : Str) (hq : ∀ x ∈ q, pyIsSpace x = false) :
    pyRStrip (q ++ t) = q ++ pyRStrip t := by
  unfold pyRStrip
  rw [List.reverse_append]
  have hdrop : q.reverse.dropWhile pyIsSpace = q.reverse := by
    cases hqr : q.reverse with
    | nil => rfl
    | cons c cs =>
      rw [List.dropWhile_cons, hq c (List.mem_reverse.mp (by rw [hqr]; simp))]
      simp
  rw [List.dropWhile_append]
  by_cases hemp : (t.reverse.dropWhile pyIsSpace).isEmpty
  · rw [if_pos hemp, hdrop, List.reverse_reverse]
    have : t.reverse.dropWhile pyIsSpace = [] := List.isEmpty_iff.mp hemp
    rw [this]
    simp
  · rw [if_neg hemp, List.reverse_append, List.reverse_reverse]

theorem pyRStrip_cons (c : Nat) (s : Str) :
    pyRStrip (c :: s) = [] ∨ ∃ u, pyRStrip (c :: s) = c :: u := by
  rcases List.eq_nil_or_concat ((c :: s).reverse.dropWhile pyIsSpace) with hnil | ⟨w, a, hwa⟩
  · left
    unfold pyRStrip
    rw [hnil]
    rfl
  · right
    rcases (List.dropWhile_suffix pyIsSpace :
        (c :: s).reverse.dropWhile pyIsSpace <:+ (c :: s).reverse) with ⟨pre, hpre⟩
    have hac : a = c := by
      have h1 : (pre ++ (c :: s).reverse.dropWhile pyIsSpace).getLast? =
          ((c :: s).reverse).getLast? := by rw [hpre]
      rw [hwa, List.concat_eq_append, ← List.append_assoc, List.getLast?_concat] at h1
      rw [show (c :: s).reverse = s.reverse ++ [c] from by simp, List.getLast?_concat] at h1
      exact Option.some.inj h1
    refine ⟨w.reverse, ?_⟩
    unfold pyRStrip
    rw [hwa, List.concat_eq_append, List.reverse_append, hac]
    rfl

theorem splitlinesGo_cons_not_break (c : Nat) (q : Str) (hc : pyIsLineBreak c = false) :
    ∀ acc, splitlinesGo (c :: q) acc = splitlinesGo q (c :: acc) := by
  have hc13 : c ≠ 13 := by
    intro hcon
    subst hcon
    simp [pyIsLineBreak] at hc
  intro acc
  rcases q with _ | ⟨d, q3⟩
  · simp [splitlinesGo, hc]
  · simp [splitlinesGo, hc, hc13]

theorem splitlinesGo_break_free (q : Str) (hq : ∀ x ∈ q, pyIsLineBreak x = false) :
    ∀ acc, splitlinesGo q acc =
      if (acc.reverse ++ q).isEmpty then [] else [acc.reverse ++ q] := by
  induction q with
  | nil =>
    intro acc
    simp [splitlinesGo]
  | cons c q2 ih =>
    intro acc
    rw [splitlinesGo_cons_not_break c q2 (hq c (by simp)) acc,
      ih (fun x hx => hq x (by simp [hx])) (c :: acc)]
    simp

theorem splitlinesGo_append_break (q t : Str) (hq : ∀ x ∈ q, pyIsLineBreak x = false) :
    ∀ acc, splitlinesGo (q ++ 10 :: t) acc = (acc.reverse ++ q) :: splitlinesGo t [] := by
  induction q with
  | nil =>
    intro acc
    simp [splitlinesGo, pyIsLineBreak]
  | cons c q2 ih =>
    intro acc
    rw [List.cons_append, splitlinesGo_cons_not_break c _ (hq c (by simp)) acc,
      ih (fun x hx => hq x (by simp [hx])) (c :: acc)]
    simp

theorem pySplitlines_single (q : Str) (hq : ∀ x ∈ q, pyIsLineBreak x = false)
    (hne : q ≠ []) : pySplitlines q = [q] := by
  unfold pySplitlines
  rw [splitlinesGo_break_free q hq []]
  simp [hne]

theorem pySplitlines_cons_break (q t : Str) (hq : ∀ x ∈ q, pyIsLineBreak x = false) :
    pySplitlines (q ++ 10 :: t) = q :: pySplitlines t := by
  unfold pySplitlines
  rw [splitlinesGo_append_break q t hq []]
  simp

/-- C9, amended.  For every NONEMPTY market label, decoding an input whose
first line is the percent-encoded label yields a market field equal to the
original label: the encoding contains no whitespace or line breaks, so
`strip`/`splitlines` keep it intact as line 0, and byte-level
percent-decoding inverts the encoding. -/
theorem claim_C9 (label rest : Str) (h256 : ∀ b ∈ label, b < 256) (hne : label ≠ [])
    (md : Metadata) (fr : Frame)
    (hok : parse_raw_stock (pyQuote label ++ 10 :: rest) = .ok (md, fr)) :
    md.market = label := by
  have hqne : pyQuote label ≠ [] := pyQuote_ne_nil label hne
  have hqns : ∀ x ∈ pyQuote label, pyIsSpace x = false :=
    fun x hx => (pyQuote_not_space label h256 x hx).1
  have hqnb : ∀ x ∈ pyQuote label, pyIsLineBreak x = false :=
    fun x hx => (pyQuote_not_space label h256 x hx).2
  have hstrip : pyStrip (pyQuote label ++ 10 :: rest) =
      pyQuote label ++ pyRStrip (10 :: rest) := by
    unfold pyStrip
    rcases hq : pyQuote label with _ | ⟨c, q2⟩
    · exact absurd hq hqne
    · rw [List.cons_append,
        pyLStrip_cons_not_space c _ (hqns c (by rw [hq]; simp)), ← List.cons_append, ← hq]
      exact pyRStrip_append _ _ hqns
  unfold parse_raw_stock at hok
  rw [hstrip] at hok
  rcases pyRStrip_cons 10 rest with hnil | ⟨u, hu⟩
  · rw [hnil, List.append_nil, pySplitlines_single _ hqnb hqne] at hok
    simp [parseLines] at hok
  · rw [hu, pySplitlines_cons_break _ _ hqnb] at hok
    rcases parseLines_ok_parts _ md fr hok with
      ⟨l0, t0, ts, st, sessions, prices, hlines, _, _, _, _, hmd⟩
    have hl0 : pyQuote label = l0 := (List.cons.inj hlines).1
    rw [hmd]
    show pyUnquote l0 = label
    rw [← hl0]
    exact pyUnquote_pyQuote label h256

def c9rest : Str :=
  asciiBytes "NYSE\nINTERVAL=86400\nCOLUMNS=DATE,CLOSE\nTIMEZONE_OFFSET=0\na1000,5"

def c9metadata : Metadata := ⟨asciiBytes "NYSE", some 86400, none, some 0⟩

def c9frame : Frame := ⟨[Cell.time 1000], [asciiBytes "CLOSE"], [[Cell.str (asciiBytes "5")]]⟩

/-- C9, counterexample.  For the EMPTY label the round trip breaks: its
percent-encoding is the empty string, `strip()` swallows the resulting
leading newline, and the next line is decoded as the market, so an input
whose first line is the encoded empty label decodes with a market other
than the label. -/
theorem claim_C9_counterexample :
    pyQuote [] = [] ∧
    parse_raw_stock (pyQuote [] ++ 10 :: c9rest) = .ok (c9metadata, c9frame) ∧
    c9metadata.market = asciiBytes "NYSE" ∧
    asciiBytes "NYSE" ≠ ([] : Str) :=
  ⟨rfl, rfl, rfl, by decide⟩

def c9wlabel : Str := asciiBytes "NY SE"

def c9wrest : Str := asciiBytes "COLUMNS=DATE,CLOSE\nTIMEZONE_OFFSET=0\na1000,5"

def c9wmetadata : Metadata := ⟨asciiBytes "NY SE", none, none, some 0⟩

def c9wframe : Frame := ⟨[Cell.time 1000], [asciiBytes "CLOSE"], [[Cell.str (asciiBytes "5")]]⟩

/-- Witness instantiating `claim_C9`: the label `NY SE` encodes to
`NY%20SE` and survives the round trip through a full decode. -/
theorem claim_C9_witness : c9wmetadata.market = c9wlabel :=
  claim_C9 c9wlabel c9wrest (by decide) (by decide) c9wmetadata c9wframe rfl
